import Mathlib

/-!
Shallow embedding of `dozer-cache/src/cache/lmdb/cache.rs`: the LMDB-backed
record cache (`LmdbCache`), its index-handle registry (`IndexMetaData`), and
the public `Cache` operations `insert`, `get`, `delete`, `update`,
`insert_schema`, `get_schema`, `get_schema_and_indexes_by_name`.

The LMDB environment is modelled as a pure state (`CacheState`) holding the
four kinds of sub-stores (`records`, `primary_index`, `schemas`, and one
dup-sort sub-store per secondary index) as association lists, plus the
in-memory index registry. A write transaction is modelled by threading a
copy of the state; a public mutator commits the copy on success and returns
the pre-transaction state on error (the dropped transaction has no effect).
LMDB's map-size limit is modelled by a `capacity` bound on the total number
of entries: a `put` that would create a new entry fails with `mapFull` when
the store is at capacity. Rust `unwrap()` panics are modelled by an explicit
`panicked` outcome.

Collaborator code that is not under `src/` (the `Indexer`, the
`index::get_schema_reverse_key` / primary-key derivation helpers, `utils`,
and the `dozer-types` record/schema types and bincode codec) is modelled
from the spec; each such definition says so in its doc comment.
-/

set_option autoImplicit false

namespace Dozer

/-- Modelled from the spec: `SchemaIdentifier` is `(id, version)`; in
`dozer-types` the fields are `id: u32`, `version: u16` (the types crate is
not under `src/`). -/
structure SchemaIdentifier where
  id : Nat
  version : Nat
deriving DecidableEq, Repr

/-- Modelled from the spec: a field value of a record. The concrete
`dozer-types::Field` enum is not under `src/`; the claims only need field
values to be comparable and encodable, so a small representative sum is
used. -/
inductive DField where
  | fNull : DField
  | fInt (i : Int) : DField
  | fString (s : String) : DField
deriving DecidableEq, Repr

/-- Modelled from the spec: a field definition (name only; the concrete
`dozer-types::FieldDefinition` is not under `src/`). -/
structure FieldDefinition where
  name : String
deriving DecidableEq, Repr

/-- Modelled from the spec: a `Schema` is an ordered list of field
definitions plus its (optional) `SchemaIdentifier`. -/
structure Schema where
  identifier : Option SchemaIdentifier
  fields : List FieldDefinition
deriving DecidableEq, Repr

/-- Modelled from the spec: `IndexDefinition` is a tagged variant, currently
only `SortedInverted(ordered list of field references)`. -/
inductive IndexDefinition where
  | sortedInverted (fields : List Nat) : IndexDefinition
deriving DecidableEq, Repr

/-- Modelled from the spec: a `Record` is a schema identifier plus an
ordered list of field values (`record.schema_id` is how `cache.rs` reads
the identifier). -/
structure Record where
  schema_id : Option SchemaIdentifier
  values : List DField
deriving DecidableEq, Repr

/-- Big-endian byte list of width `w` of `n` (models Rust `to_be_bytes`;
the value is reduced mod `2 ^ (8 * w)` as the machine integer would be). -/
def beBytes (w : Nat) (n : Nat) : List Nat :=
  (List.range w).map (fun i => n / 256 ^ (w - 1 - i) % 256)

/-- The bytes of a string (one codepoint per entry; only ASCII names are
used by the embedding). -/
def strToBytes (s : String) : List Nat :=
  s.data.map Char.toNat

/-- `get_schema_key` from `cache.rs`:
`["sc", id.to_be_bytes(), version.to_be_bytes()].join("#")`, i.e. the byte
string `"sc" ‖ '#' ‖ be(id) ‖ '#' ‖ be(version)` (35 is `'#'`). -/
def get_schema_key (sid : SchemaIdentifier) : List Nat :=
  strToBytes "sc" ++ [35] ++ beBytes 4 sid.id ++ [35] ++ beBytes 2 sid.version

/-- Modelled from the spec: `index::get_schema_reverse_key` is not under
`src/`; the spec requires "a structurally distinct key" namespace derived
from the human-readable name, never colliding with schema-record keys. -/
def get_schema_reverse_key (name : String) : List Nat :=
  strToBytes "schema_name_" ++ strToBytes name

/-- A value stored in the `schemas` sub-store: either the bincode blob of a
`(Schema, Vec<IndexDefinition>)` pair or the blob of a `SchemaIdentifier`
(the name → identifier reverse entry). Bincode (external to `src/`) is
modelled as the identity on these typed values; deserializing at the wrong
type is a serialization failure. -/
inductive SchemaVal where
  | schemaBlob (schema : Schema) (idxs : List IndexDefinition) : SchemaVal
  | sidBlob (sid : SchemaIdentifier) : SchemaVal
deriving DecidableEq, Repr

/-! ### Association-list primitives for the sub-stores -/

section AList

variable {κ ν : Type} [DecidableEq κ]

/-- Lookup in an association list (first match). -/
def alGet : List (κ × ν) → κ → Option ν
  | [], _ => none
  | (k', v) :: rest, k => if k' = k then some v else alGet rest k

/-- Overwriting insert in an association list (LMDB `put` with default
write flags overwrites an existing key). -/
def alPut : List (κ × ν) → κ → ν → List (κ × ν)
  | [], k, v => [(k, v)]
  | (k', v') :: rest, k, v =>
    if k' = k then (k', v) :: rest else (k', v') :: alPut rest k v

/-- Delete a key from an association list (first match). -/
def alDel : List (κ × ν) → κ → List (κ × ν)
  | [], _ => []
  | (k', v') :: rest, k => if k' = k then rest else (k', v') :: alDel rest k

/-- Remove the first occurrence of an element from a list. -/
def removeOne [DecidableEq ν] : List ν → ν → List ν
  | [], _ => []
  | x :: rest, y => if x = y then rest else x :: removeOne rest y

end AList

/-! ### Errors -/

/-- The LMDB error values the embedding distinguishes: `MDB_NOTFOUND` from
`get`/`del`, and `MDB_MAP_FULL` from a `put` into a full environment. -/
inductive LmdbError where
  | notFound : LmdbError
  | mapFull : LmdbError
deriving DecidableEq, Repr

/-- `QueryError` variants as used by `cache.rs` (the `errors` module is not
under `src/`; variants are modelled from their construction sites:
`GetValue`, `InsertValue`, `DeleteValue`, each wrapping an LMDB error). -/
inductive QueryError where
  | getValue (e : LmdbError) : QueryError
  | insertValue (e : LmdbError) : QueryError
  | deleteValue (e : LmdbError) : QueryError
deriving DecidableEq, Repr

/-- `CacheError` variants as used by `cache.rs` (the `errors` module is not
under `src/`): `QueryError(..)`, `SchemaIdentifierNotFound`, a
serialization error, and `InternalError(Box<..>)` wrapping either another
`CacheError` (the `update_with_txn` insert path) or an LMDB error (failed
`begin_rw_txn` / `commit`). -/
inductive CacheError where
  | queryError (q : QueryError) : CacheError
  | schemaIdentifierNotFound : CacheError
  | serializationError : CacheError
  | internalError (e : CacheError) : CacheError
  | internalLmdb (e : LmdbError) : CacheError
deriving DecidableEq, Repr

/-- Outcome of an in-transaction computation: success, a typed error, or a
Rust panic (`unwrap()` on `None`/`Err`). -/
inductive Res (α : Type) where
  | ok : α → Res α
  | err : CacheError → Res α
  | panicked : Res α
deriving DecidableEq, Repr

/-! ### The cache state -/

/-- The observable state of the LMDB environment plus the in-memory index
registry.

* `db`: the `records` sub-store, internal record id (the 8-byte big-endian
  key, modelled as the `Nat` it encodes) ↦ record blob;
* `primary_index`: caller lookup key ↦ internal record id (always written
  as an 8-byte id, so the value is modelled as the `Nat` it encodes);
* `index_dbs`: the secondary-index sub-stores, registry key ↦ dup-sort
  entry list of (encoded index key, internal id) pairs;
* `index_registry`: the keys registered in `IndexMetaData` (a registered
  key's `Database` handle is identified with the key itself);
* `schema_db`: the `schemas` sub-store;
* `capacity`: the LMDB map-size bound, as a maximum total entry count. -/
structure CacheState where
  db : List (Nat × Record)
  primary_index : List (List Nat × Nat)
  index_dbs : List (Nat × List (List Nat × Nat))
  index_registry : List Nat
  schema_db : List (List Nat × SchemaVal)
  capacity : Nat
deriving DecidableEq, Repr

/-- Total number of entries across all sub-stores (what the map-size bound
limits). -/
def totalEntries (t : CacheState) : Nat :=
  t.db.length + t.primary_index.length + t.schema_db.length +
    (t.index_dbs.map (fun p => p.2.length)).sum

/-- Outcome of a public mutating operation: the committed post-state, or an
error together with the state left behind (the transaction is dropped, so
on error only pre-transaction registry changes survive), or a panic. -/
inductive MutRes where
  | ok : CacheState → MutRes
  | err : CacheError → CacheState → MutRes
  | panicked : MutRes
deriving DecidableEq, Repr

/-! ### LMDB store primitives (`txn.put` / `txn.get` / `txn.del`) -/

/-- `txn.put` on the `records` sub-store (default flags: overwrite allowed;
a new entry needs room under the map-size bound). -/
def putRecordStore (t : CacheState) (id : Nat) (r : Record) :
    Except LmdbError CacheState :=
  if (alGet t.db id).isSome then .ok { t with db := alPut t.db id r }
  else if totalEntries t < t.capacity then .ok { t with db := alPut t.db id r }
  else .error .mapFull

/-- `txn.put` on the `primary_index` sub-store. -/
def putPrimaryStore (t : CacheState) (key : List Nat) (id : Nat) :
    Except LmdbError CacheState :=
  if (alGet t.primary_index key).isSome then
    .ok { t with primary_index := alPut t.primary_index key id }
  else if totalEntries t < t.capacity then
    .ok { t with primary_index := alPut t.primary_index key id }
  else .error .mapFull

/-- `txn.put` on the `schemas` sub-store. -/
def putSchemaStore (t : CacheState) (key : List Nat) (v : SchemaVal) :
    Except LmdbError CacheState :=
  if (alGet t.schema_db key).isSome then
    .ok { t with schema_db := alPut t.schema_db key v }
  else if totalEntries t < t.capacity then
    .ok { t with schema_db := alPut t.schema_db key v }
  else .error .mapFull

/-- `txn.put` on a dup-sort secondary-index sub-store (handle `dbk`): an
exact duplicate (key, data) pair is a no-op; otherwise the pair is added as
a new entry. -/
def putSecondaryStore (t : CacheState) (dbk : Nat) (k : List Nat) (id : Nat) :
    Except LmdbError CacheState :=
  let entries := (alGet t.index_dbs dbk).getD []
  if (k, id) ∈ entries then .ok t
  else if totalEntries t < t.capacity then
    .ok { t with index_dbs := alPut t.index_dbs dbk (entries ++ [(k, id)]) }
  else .error .mapFull

/-- `txn.get` on the `primary_index` sub-store. -/
def getPrimaryStore (t : CacheState) (key : List Nat) : Except LmdbError Nat :=
  match alGet t.primary_index key with
  | some id => .ok id
  | none => .error .notFound

/-- `txn.get` on the `records` sub-store. -/
def getRecordStore (t : CacheState) (id : Nat) : Except LmdbError Record :=
  match alGet t.db id with
  | some r => .ok r
  | none => .error .notFound

/-- `txn.get` on the `schemas` sub-store. -/
def getSchemaStore (t : CacheState) (key : List Nat) :
    Except LmdbError SchemaVal :=
  match alGet t.schema_db key with
  | some v => .ok v
  | none => .error .notFound

/-- `txn.del` on the `records` sub-store. -/
def delRecordStore (t : CacheState) (id : Nat) : Except LmdbError CacheState :=
  if (alGet t.db id).isSome then .ok { t with db := alDel t.db id }
  else .error .notFound

/-- `txn.del` on the `primary_index` sub-store. -/
def delPrimaryStore (t : CacheState) (key : List Nat) :
    Except LmdbError CacheState :=
  if (alGet t.primary_index key).isSome then
    .ok { t with primary_index := alDel t.primary_index key }
  else .error .notFound

/-- `txn.del` with explicit data on a dup-sort secondary-index sub-store:
removes the exact (key, data) pair. -/
def delSecondaryStore (t : CacheState) (dbk : Nat) (k : List Nat) (id : Nat) :
    Except LmdbError CacheState :=
  let entries := (alGet t.index_dbs dbk).getD []
  if (k, id) ∈ entries then
    .ok { t with index_dbs := alPut t.index_dbs dbk (removeOne entries (k, id)) }
  else .error .notFound

/-! ### `IndexMetaData` -/

/-- `IndexMetaData::get_key`: `schema.identifier.as_ref().unwrap().id as
usize * 100000 + idx` — `none` models the `unwrap()` panic when the schema
has no identifier; the arithmetic is `usize` (64-bit, wrapping in release
builds), hence the reduction mod `2 ^ 64`. -/
def IndexMetaData.get_key (schema : Schema) (idx : Nat) : Option Nat :=
  schema.identifier.map (fun sid => (sid.id * 100000 + idx) % 2 ^ 64)

/-- `IndexMetaData::insert_index`: registers a key in the in-memory
registry (a `HashMap` insert; the `Database` handle is identified with its
registry key in the embedding). -/
def IndexMetaData.insert_index (t : CacheState) (k : Nat) : CacheState :=
  { t with index_registry :=
      if k ∈ t.index_registry then t.index_registry else k :: t.index_registry }

/-- `IndexMetaData::get_db`: computes the registry key (panicking when the
schema has no identifier) and looks it up in the registry —
`.get(&key).unwrap()` panics when the key was never registered. -/
def IndexMetaData.get_db (t : CacheState) (schema : Schema) (idx : Nat) :
    Res Nat :=
  match IndexMetaData.get_key schema idx with
  | none => .panicked
  | some k => if k ∈ t.index_registry then .ok k else .panicked

/-- Modelled from the spec: `utils::init_db` (not under `src/`) creates a
named sub-store if it does not exist — "a separate, idempotent registration
step". Creation of an empty sub-store consumes no data entries. -/
def init_index_db (t : CacheState) (k : Nat) : CacheState :=
  if (alGet t.index_dbs k).isSome then t
  else { t with index_dbs := alPut t.index_dbs k [] }

/-! ### The modelled `Indexer` (spec §4.3; `indexer.rs` is not under `src/`) -/

/-- Modelled from the spec: a canonical, deterministic byte encoding of a
field value (the record codec is external to `src/`). -/
def encodeDField : DField → List Nat
  | .fNull => [0]
  | .fInt i => [1] ++ beBytes 8 (i + 2 ^ 63).toNat
  | .fString s => [2] ++ strToBytes s ++ [3]

/-- Modelled from the spec: concatenation of the encodings of a field-value
list, in declared order. -/
def encodeDFields (vs : List DField) : List Nat :=
  (vs.map encodeDField).flatten

/-- Modelled from the spec: the primary lookup key of a record is derived
from its field values (`index::get_primary_key` is not under `src/`). -/
def record_lookup_key (r : Record) : List Nat :=
  encodeDFields r.values

/-- Modelled from the spec: the composite secondary-index key of a record
under a `SortedInverted` definition — the named field values, extracted in
declared order and encoded. -/
def secondary_index_key (r : Record) : IndexDefinition → List Nat
  | .sortedInverted fields =>
    encodeDFields (fields.map (fun i => r.values.getD i .fNull))

/-- Modelled from the spec §4.3: for each index definition (ordinal `i`
onward), resolve its sub-store through `IndexMetaData::get_db` (which
panics on an unregistered index) and write `(encodedKey, internalId)` into
it. -/
def build_secondary (r : Record) (schema : Schema) (id : Nat) :
    CacheState → Nat → List IndexDefinition → Res CacheState
  | t, _, [] => .ok t
  | t, i, d :: rest =>
    match IndexMetaData.get_db t schema i with
    | .panicked => .panicked
    | .err e => .err e
    | .ok dbk =>
      match putSecondaryStore t dbk (secondary_index_key r d) id with
      | .error e => .err (.queryError (.insertValue e))
      | .ok t2 => build_secondary r schema id t2 (i + 1) rest

/-- Modelled from the spec §4.3: `Indexer::build_indexes` writes every
secondary-index entry and the `(recordLookupKey, internalId)` entry of the
primary-key index, inside the caller's transaction. -/
def build_indexes (t : CacheState) (r : Record) (schema : Schema)
    (idxs : List IndexDefinition) (id : Nat) : Res CacheState :=
  match build_secondary r schema id t 0 idxs with
  | .ok t1 =>
    match putPrimaryStore t1 (record_lookup_key r) id with
    | .error e => .err (.queryError (.insertValue e))
    | .ok t2 => .ok t2
  | x => x

/-- Modelled from the spec §4.3: for each index definition, resolve its
sub-store (panicking on an unregistered index) and delete the exact
`(encodedKey, internalId)` pair recomputed from the record's pre-deletion
field values. -/
def delete_secondary (r : Record) (schema : Schema) (id : Nat) :
    CacheState → Nat → List IndexDefinition → Res CacheState
  | t, _, [] => .ok t
  | t, i, d :: rest =>
    match IndexMetaData.get_db t schema i with
    | .panicked => .panicked
    | .err e => .err e
    | .ok dbk =>
      match delSecondaryStore t dbk (secondary_index_key r d) id with
      | .error e => .err (.queryError (.deleteValue e))
      | .ok t2 => delete_secondary r schema id t2 (i + 1) rest

/-- Modelled from the spec §4.3: `Indexer::delete_indexes` removes every
secondary-index entry of the record and the caller-keyed primary-index
entry, inside the caller's transaction. -/
def delete_indexes (t : CacheState) (r : Record) (schema : Schema)
    (idxs : List IndexDefinition) (key : List Nat) (id : Nat) :
    Res CacheState :=
  match delete_secondary r schema id t 0 idxs with
  | .ok t1 =>
    match delPrimaryStore t1 key with
    | .error e => .err (.queryError (.deleteValue e))
    | .ok t2 => .ok t2
  | x => x

namespace LmdbCache

/-- `LmdbCache::get_schema_and_indexes`: direct lookup of the schema blob
under `get_schema_key`; an absent key is `GetValue(NOTFOUND)`, a blob of
the wrong shape is a deserialization failure. -/
def get_schema_and_indexes (s : CacheState) (sid : SchemaIdentifier) :
    Res (Schema × List IndexDefinition) :=
  match getSchemaStore s (get_schema_key sid) with
  | .error e => .err (.queryError (.getValue e))
  | .ok (.schemaBlob schema idxs) => .ok (schema, idxs)
  | .ok (.sidBlob _) => .err .serializationError

/-- `LmdbCache::get_schema_and_indexes_from_record`: a record without a
schema identifier is `SchemaIdentifierNotFound`; otherwise resolve through
the schema catalog. -/
def get_schema_and_indexes_from_record (s : CacheState) (r : Record) :
    Res (Schema × List IndexDefinition) :=
  match r.schema_id with
  | none => .err .schemaIdentifierNotFound
  | some sid => get_schema_and_indexes s sid

/-- `LmdbCache::get_schema_from_reverse_key`: name → identifier via the
reverse entry, then identifier → schema blob. -/
def get_schema_from_reverse_key (s : CacheState) (name : String) :
    Res (Schema × List IndexDefinition) :=
  match getSchemaStore s (get_schema_reverse_key name) with
  | .error e => .err (.queryError (.getValue e))
  | .ok (.sidBlob sid) => get_schema_and_indexes s sid
  | .ok (.schemaBlob _ _) => .err .serializationError

/-- `LmdbCache::get_with_txn`: lookup key → internal id in the primary-key
index, then fetch and decode the record from the primary store
(`helper::get`, not under `src/`, modelled as fetch + infallible decode of
the typed record blob). -/
def get_with_txn (s : CacheState) (key : List Nat) : Res Record :=
  match getPrimaryStore s key with
  | .error e => .err (.queryError (.getValue e))
  | .ok id =>
    match getRecordStore s id with
    | .error e => .err (.queryError (.getValue e))
    | .ok r => .ok r

/-- `LmdbCache::insert_with_txn`: the internal record id is the primary
store's current entry count (`lmdb_stat(..).ms_entries`); the encoded
record is written under it, then the `Indexer` builds the primary-key and
all secondary-index entries. -/
def insert_with_txn (t : CacheState) (r : Record) (schema : Schema)
    (secondary_indexes : List IndexDefinition) : Res CacheState :=
  let id := t.db.length
  match putRecordStore t id r with
  | .error e => .err (.queryError (.insertValue e))
  | .ok t1 => build_indexes t1 r schema secondary_indexes id

/-- `LmdbCache::delete_record_with_txn`: resolve the lookup key to the
internal id (the stored value is always an 8-byte id, so the source's
`try_into().unwrap()` cannot fail in the embedding) and delete the
primary-store entry. -/
def delete_record_with_txn (t : CacheState) (key : List Nat) :
    Except LmdbError (Nat × CacheState) :=
  match getPrimaryStore t key with
  | .error e => .error e
  | .ok id =>
    match delRecordStore t id with
    | .error e => .error e
    | .ok t1 => .ok (id, t1)

/-- `LmdbCache::delete_with_txn`: delete the primary-store entry (errors
mapped to `DeleteValue`), then have the `Indexer` remove the record's
index entries. -/
def delete_with_txn (t : CacheState) (key : List Nat) (r : Record)
    (schema : Schema) (secondary_indexes : List IndexDefinition) :
    Res CacheState :=
  match delete_record_with_txn t key with
  | .error e => .err (.queryError (.deleteValue e))
  | .ok (id, t1) => delete_indexes t1 r schema secondary_indexes key id

/-- `LmdbCache::update_with_txn`: `delete_with_txn` on the old record, then
`insert_with_txn` of the new record under the same (old-record) schema and
index definitions, with insert errors boxed into `InternalError`. -/
def update_with_txn (t : CacheState) (key : List Nat) (old new : Record)
    (schema : Schema) (secondary_indexes : List IndexDefinition) :
    Res CacheState :=
  match delete_with_txn t key old schema secondary_indexes with
  | .err e => .err e
  | .panicked => .panicked
  | .ok t1 =>
    match insert_with_txn t1 new schema secondary_indexes with
    | .err e => .err (.internalError e)
    | x => x

/-- `LmdbCache::insert_schema_with_txn`: serialize the
`(schema, secondary_indexes)` pair (infallible in the embedding), take the
identifier — `.unwrap()` panics when it is `None` — and write the schema
blob under `get_schema_key` and the identifier blob under the name's
reverse key, both in the given transaction. -/
def insert_schema_with_txn (t : CacheState) (schema : Schema) (name : String)
    (secondary_indexes : List IndexDefinition) : Res CacheState :=
  match schema.identifier with
  | none => .panicked
  | some sid =>
    match putSchemaStore t (get_schema_key sid) (.schemaBlob schema secondary_indexes) with
    | .error e => .err (.queryError (.insertValue e))
    | .ok t1 =>
      match putSchemaStore t1 (get_schema_reverse_key name) (.sidBlob sid) with
      | .error e => .err (.queryError (.insertValue e))
      | .ok t2 => .ok t2

/-! #### Public `Cache` operations -/

/-- `Cache::insert` for `LmdbCache`: open a write transaction, resolve
schema and index definitions from the record's identifier, insert, commit;
a dropped (errored) transaction leaves the state unchanged. -/
def insert (s : CacheState) (record : Record) : MutRes :=
  match get_schema_and_indexes_from_record s record with
  | .err e => .err e s
  | .panicked => .panicked
  | .ok (schema, secondary_indexes) =>
    match insert_with_txn s record schema secondary_indexes with
    | .ok t => .ok t
    | .err e => .err e s
    | .panicked => .panicked

/-- `Cache::delete` for `LmdbCache`: fetch the current record for the key,
resolve its schema and index definitions, delete the primary entry and all
index entries, commit. -/
def delete (s : CacheState) (key : List Nat) : MutRes :=
  match get_with_txn s key with
  | .err e => .err e s
  | .panicked => .panicked
  | .ok record =>
    match get_schema_and_indexes_from_record s record with
    | .err e => .err e s
    | .panicked => .panicked
    | .ok (schema, secondary_indexes) =>
      match delete_with_txn s key record schema secondary_indexes with
      | .ok t => .ok t
      | .err e => .err e s
      | .panicked => .panicked

/-- `Cache::get` for `LmdbCache`: a read transaction resolving the key
through the primary-key index and fetching the record. -/
def get (s : CacheState) (key : List Nat) : Res Record :=
  get_with_txn s key

/-- `Cache::update` for `LmdbCache`: fetch the old record for the key,
resolve schema and index definitions from the OLD record, then
`update_with_txn` (delete old, insert new), commit. -/
def update (s : CacheState) (key : List Nat) (record : Record) : MutRes :=
  match get_with_txn s key with
  | .err e => .err e s
  | .panicked => .panicked
  | .ok old_record =>
    match get_schema_and_indexes_from_record s old_record with
    | .err e => .err e s
    | .panicked => .panicked
    | .ok (schema, secondary_indexes) =>
      match update_with_txn s key old_record record schema secondary_indexes with
      | .ok t => .ok t
      | .err e => .err e s
      | .panicked => .panicked

/-- `Cache::get_schema` for `LmdbCache`: lookup by exact identifier,
dropping the index definitions. -/
def get_schema (s : CacheState) (sid : SchemaIdentifier) : Res Schema :=
  match get_schema_and_indexes s sid with
  | .ok (schema, _) => .ok schema
  | .err e => .err e
  | .panicked => .panicked

/-- `Cache::get_schema_and_indexes_by_name` for `LmdbCache`: two-step
name → identifier → schema resolution. -/
def get_schema_and_indexes_by_name (s : CacheState) (name : String) :
    Res (Schema × List IndexDefinition) :=
  get_schema_from_reverse_key s name

/-- The pre-transaction phase of `Cache::insert_schema`: for each index
definition (ordinal `i` onward) compute the registry key (`get_key`
unwraps the identifier — panic on `None`), create the sub-store via
`init_db` (idempotent, infallible in the embedding; the `SortedInverted`
comparator installation affects only iteration order and is not modelled)
and register it in `IndexMetaData`. -/
def register_indexes (schema : Schema) :
    CacheState → Nat → List IndexDefinition → Res CacheState
  | t, _, [] => .ok t
  | t, i, _d :: rest =>
    match IndexMetaData.get_key schema i with
    | none => .panicked
    | some k =>
      register_indexes schema
        (IndexMetaData.insert_index (init_index_db t k) k) (i + 1) rest

/-- `Cache::insert_schema` for `LmdbCache`: create and register every
secondary-index sub-store (outside any transaction), then in one write
transaction insert the schema blob and the name reverse entry and commit;
only the transaction part is rolled back on error. -/
def insert_schema (s : CacheState) (name : String) (schema : Schema)
    (secondary_indexes : List IndexDefinition) : MutRes :=
  match register_indexes schema s 0 secondary_indexes with
  | .err e => .err e s
  | .panicked => .panicked
  | .ok s1 =>
    match insert_schema_with_txn s1 schema name secondary_indexes with
    | .ok t => .ok t
    | .err e => .err e s1
    | .panicked => .panicked

/-- Spec-side definition, for the update-refinement claim: "delete(key)
followed by insert(newRecord) inside one transaction" — the public
delete's steps followed by the public insert's steps (the insert resolving
its schema from `newRecord`'s own identifier, as `Cache::insert` does),
sharing one write transaction, so that an error anywhere discards
everything. -/
def delete_then_insert_one_txn (s : CacheState) (key : List Nat)
    (record : Record) : MutRes :=
  match get_with_txn s key with
  | .err e => .err e s
  | .panicked => .panicked
  | .ok old_record =>
    match get_schema_and_indexes_from_record s old_record with
    | .err e => .err e s
    | .panicked => .panicked
    | .ok (schema, secondary_indexes) =>
      match delete_with_txn s key old_record schema secondary_indexes with
      | .err e => .err e s
      | .panicked => .panicked
      | .ok t1 =>
        match get_schema_and_indexes_from_record t1 record with
        | .err e => .err e s
        | .panicked => .panicked
        | .ok (schema2, secondary_indexes2) =>
          match insert_with_txn t1 record schema2 secondary_indexes2 with
          | .ok t2 => .ok t2
          | .err e => .err e s
          | .panicked => .panicked

end LmdbCache

/-- Two public-mutation outcomes agree observably: both commit the same
state, both fail leaving the same state behind, or both panic (error
values themselves are not compared). -/
def MutRes.agrees : MutRes → MutRes → Prop
  | .ok t1, .ok t2 => t1 = t2
  | .err _ t1, .err _ t2 => t1 = t2
  | .panicked, .panicked => True
  | _, _ => False

/-- Replace the `records` store of the state inside a successful outcome
(used to express that index building never reads the `records` store's
contents). -/
def setDbRes (d : List (Nat × Record)) : Res CacheState → Res CacheState
  | .ok t => .ok { t with db := d }
  | x => x

/-! ### Concrete scenario states (used by counterexamples and witnesses) -/

/-- A fresh environment with the given map-size bound. -/
def emptyState (cap : Nat) : CacheState :=
  { db := [], primary_index := [], index_dbs := [], index_registry := [],
    schema_db := [], capacity := cap }

/-- The state inside a mutation outcome, with a fallback. -/
def MutRes.stateOr (m : MutRes) (d : CacheState) : CacheState :=
  match m with
  | .ok t => t
  | .err _ t => t
  | .panicked => d

/-- Scenario schema identifier: id 1, version 1. -/
def sidA : SchemaIdentifier := ⟨1, 1⟩

/-- Scenario schema with two fields and identifier `sidA`. -/
def schemaA : Schema := ⟨some sidA, [⟨"id"⟩, ⟨"name"⟩]⟩

/-- Scenario records under `schemaA` with pairwise distinct values. -/
def rA : Record := ⟨some sidA, [.fInt 1, .fString "a"]⟩

/-- Second scenario record. -/
def rB : Record := ⟨some sidA, [.fInt 2, .fString "b"]⟩

/-- Third scenario record. -/
def rC : Record := ⟨some sidA, [.fInt 3, .fString "c"]⟩

/-- Fresh environment with room for 100 entries. -/
def st0 : CacheState := emptyState 100

/-- `st0` after registering `schemaA` (no secondary indexes) under name
`"s"`. -/
def stSchema : CacheState :=
  (LmdbCache.insert_schema st0 "s" schemaA []).stateOr st0

/-- `stSchema` after inserting `rA` (internal id 0). -/
def stA : CacheState := (LmdbCache.insert stSchema rA).stateOr stSchema

/-- `stA` after inserting `rB` (internal id 1). -/
def stAB : CacheState := (LmdbCache.insert stA rB).stateOr stA

/-- `stAB` after deleting `rA` by its lookup key: the primary store holds
only internal id 1 (`rB`), but its entry count is back to 1. -/
def stDel : CacheState :=
  (LmdbCache.delete stAB (record_lookup_key rA)).stateOr stAB

/-- `stDel` after inserting `rC`: the freshly allocated internal id is
`stDel.db.length = 1`, which is exactly `rB`'s live id. -/
def stReuse : CacheState := (LmdbCache.insert stDel rC).stateOr stDel

/-- `st0` after registering `schemaA` with one `SortedInverted` index on
field 0, under name `"s"`. -/
def stIdx : CacheState :=
  (LmdbCache.insert_schema st0 "s" schemaA [.sortedInverted [0]]).stateOr st0

/-- A failing `insert_schema` on a zero-capacity environment: the index
sub-store registration survives while the schema transaction fails. -/
def stRegFail : CacheState :=
  (LmdbCache.insert_schema (emptyState 0) "s" schemaA
    [.sortedInverted [0]]).stateOr (emptyState 0)

/-! ## Lemmas about the association-list primitives -/

section AListLemmas

variable {κ ν : Type} [DecidableEq κ]

theorem alGet_alPut_self (l : List (κ × ν)) (k : κ) (v : ν) :
    alGet (alPut l k v) k = some v := by
  induction l with
  | nil => simp [alGet, alPut]
  | cons p rest ih =>
    by_cases h : p.1 = k
    · simp [alGet, alPut, h]
    · simp [alGet, alPut, h, ih]

theorem alGet_alPut_ne (l : List (κ × ν)) (k k' : κ) (v : ν) (h : k ≠ k') :
    alGet (alPut l k v) k' = alGet l k' := by
  induction l with
  | nil => simp [alGet, alPut, h]
  | cons p rest ih =>
    by_cases hp : p.1 = k
    · simp [alGet, alPut, hp, h]
    · simp only [alPut, hp, if_false]
      by_cases hp' : p.1 = k'
      · simp [alGet, hp']
      · simp [alGet, hp', ih]

theorem alPut_length_le (l : List (κ × ν)) (k : κ) (v : ν) :
    (alPut l k v).length ≤ l.length + 1 := by
  induction l with
  | nil => simp [alPut]
  | cons p rest ih =>
    by_cases hp : p.1 = k
    · simp [alPut, hp]
    · simp only [alPut, hp, if_false, List.length_cons]
      omega

theorem sum_len_alPut_snoc (l : List (κ × List ν)) (k : κ) (x : ν) :
    ((alPut l k ((alGet l k).getD [] ++ [x])).map (fun p => p.2.length)).sum
      = (l.map (fun p => p.2.length)).sum + 1 := by
  induction l with
  | nil => simp [alGet, alPut]
  | cons p rest ih =>
    by_cases hp : p.1 = k
    · simp [alGet, alPut, hp]
      omega
    · simp only [alGet, alPut, hp, if_false, List.map_cons, List.sum_cons]
      omega

theorem sum_len_alPut_nil_of_none (l : List (κ × List ν)) (k : κ)
    (h : alGet l k = none) :
    ((alPut l k []).map (fun p => p.2.length)).sum
      = (l.map (fun p => p.2.length)).sum := by
  induction l with
  | nil => simp [alPut]
  | cons p rest ih =>
    by_cases hp : p.1 = k
    · simp [alGet, hp] at h
    · simp only [alGet, hp, if_false] at h
      simp only [alPut, hp, if_false, List.map_cons, List.sum_cons]
      rw [ih h]

end AListLemmas

/-! ## Lemmas about the store primitives -/

theorem totalEntries_set_db (t : CacheState) (d : List (Nat × Record)) :
    totalEntries { t with db := d } =
      d.length + t.primary_index.length + t.schema_db.length +
        (t.index_dbs.map (fun p => p.2.length)).sum := rfl

theorem putRecordStore_ok_of_lt (t : CacheState) (id : Nat) (r : Record)
    (h : totalEntries t < t.capacity) :
    putRecordStore t id r = .ok { t with db := alPut t.db id r } := by
  unfold putRecordStore
  by_cases h1 : (alGet t.db id).isSome <;> simp [h1, h]

theorem putPrimaryStore_ok_of_lt (t : CacheState) (key : List Nat) (id : Nat)
    (h : totalEntries t < t.capacity) :
    putPrimaryStore t key id =
      .ok { t with primary_index := alPut t.primary_index key id } := by
  unfold putPrimaryStore
  by_cases h1 : (alGet t.primary_index key).isSome <;> simp [h1, h]

theorem putSchemaStore_ok_of_lt (t : CacheState) (key : List Nat) (v : SchemaVal)
    (h : totalEntries t < t.capacity) :
    putSchemaStore t key v = .ok { t with schema_db := alPut t.schema_db key v } := by
  unfold putSchemaStore
  by_cases h1 : (alGet t.schema_db key).isSome <;> simp [h1, h]

theorem putSchemaStore_ok_of_isSome (t : CacheState) (key : List Nat) (v : SchemaVal)
    (h : (alGet t.schema_db key).isSome) :
    putSchemaStore t key v = .ok { t with schema_db := alPut t.schema_db key v } := by
  unfold putSchemaStore
  simp [h]

theorem putSecondaryStore_ok_of_lt (t : CacheState) (dbk : Nat) (k : List Nat)
    (id : Nat) (h : totalEntries t < t.capacity) :
    ∃ u, putSecondaryStore t dbk k id = .ok u ∧
      u.db = t.db ∧ u.primary_index = t.primary_index ∧
      u.schema_db = t.schema_db ∧ u.index_registry = t.index_registry ∧
      u.capacity = t.capacity ∧ totalEntries u ≤ totalEntries t + 1 := by
  by_cases hdup : (k, id) ∈ (alGet t.index_dbs dbk).getD []
  · exact ⟨t, by simp [putSecondaryStore, hdup], rfl, rfl, rfl, rfl, rfl, by omega⟩
  · have hput : putSecondaryStore t dbk k id = .ok { t with index_dbs := alPut t.index_dbs dbk ((alGet t.index_dbs dbk).getD [] ++ [(k, id)]) } := by
      simp [putSecondaryStore, hdup, h]
    refine ⟨_, hput, rfl, rfl, rfl, rfl, rfl, ?_⟩
    unfold totalEntries
    dsimp only
    rw [sum_len_alPut_snoc]
    omega

/-- Resolution through the catalog succeeds on a stored schema blob. -/
theorem get_schema_and_indexes_from_record_ok (s : CacheState) (r : Record)
    (sid : SchemaIdentifier) (schema : Schema) (idxs : List IndexDefinition)
    (hsid : r.schema_id = some sid)
    (hcat : alGet s.schema_db (get_schema_key sid) = some (.schemaBlob schema idxs)) :
    LmdbCache.get_schema_and_indexes_from_record s r = .ok (schema, idxs) := by
  simp [LmdbCache.get_schema_and_indexes_from_record, hsid,
    LmdbCache.get_schema_and_indexes, getSchemaStore, hcat]

/-- Success of the secondary-index building loop, with the frame facts
needed downstream: only `index_dbs` changes, and the total entry count
grows by at most one per definition. -/
theorem build_secondary_ok (r : Record) (schema : Schema) (id : Nat)
    (idxs : List IndexDefinition) :
    ∀ (t : CacheState) (i : Nat),
    (∀ j, j < idxs.length →
      ∃ k, IndexMetaData.get_key schema (i + j) = some k ∧ k ∈ t.index_registry) →
    totalEntries t + idxs.length ≤ t.capacity →
    ∃ u, build_secondary r schema id t i idxs = .ok u ∧
      u.db = t.db ∧ u.primary_index = t.primary_index ∧
      u.schema_db = t.schema_db ∧ u.index_registry = t.index_registry ∧
      u.capacity = t.capacity ∧
      totalEntries u ≤ totalEntries t + idxs.length := by
  induction idxs with
  | nil =>
    intro t i _ _
    exact ⟨t, rfl, rfl, rfl, rfl, rfl, rfl, by omega⟩
  | cons d rest ih =>
    intro t i hcov hcap
    obtain ⟨k, hk, hkmem⟩ := hcov 0 (by simp)
    rw [Nat.add_zero] at hk
    obtain ⟨u1, hput, hdb, hpi, hsdb, hreg, hcapEq, htot⟩ :=
      putSecondaryStore_ok_of_lt t k (secondary_index_key r d) id
        (by simp only [List.length_cons] at hcap; omega)
    have hgdb : IndexMetaData.get_db t schema i = .ok k := by
      unfold IndexMetaData.get_db
      rw [hk]
      simp [hkmem]
    have hcov1 : ∀ j, j < rest.length →
        ∃ k2, IndexMetaData.get_key schema (i + 1 + j) = some k2 ∧
          k2 ∈ u1.index_registry := by
      intro j hj
      obtain ⟨k2, hk2, hk2mem⟩ := hcov (j + 1) (by simp; omega)
      rw [show i + (j + 1) = i + 1 + j by omega] at hk2
      exact ⟨k2, hk2, by rw [hreg]; exact hk2mem⟩
    have hcap1 : totalEntries u1 + rest.length ≤ u1.capacity := by
      simp only [List.length_cons] at hcap
      omega
    obtain ⟨u2, hrest, h1, h2, h3, h4, h5, h6⟩ := ih u1 (i + 1) hcov1 hcap1
    refine ⟨u2, ?_, ?_, ?_, ?_, ?_, ?_, ?_⟩
    · simp only [build_secondary, hgdb, hput, hrest]
    · rw [h1, hdb]
    · rw [h2, hpi]
    · rw [h3, hsdb]
    · rw [h4, hreg]
    · rw [h5, hcapEq]
    · simp only [List.length_cons]
      omega

/-- Success and effect of `insert_with_txn` when the registry covers the
index definitions and the environment has room. -/
theorem insert_with_txn_ok (t : CacheState) (r : Record) (schema : Schema)
    (idxs : List IndexDefinition)
    (hcov : ∀ j, j < idxs.length →
      ∃ k, IndexMetaData.get_key schema j = some k ∧ k ∈ t.index_registry)
    (hcap : totalEntries t + idxs.length + 2 ≤ t.capacity) :
    ∃ u, LmdbCache.insert_with_txn t r schema idxs = .ok u ∧
      u.db = alPut t.db t.db.length r ∧
      u.primary_index = alPut t.primary_index (record_lookup_key r) t.db.length ∧
      u.schema_db = t.schema_db ∧ u.index_registry = t.index_registry ∧
      u.capacity = t.capacity ∧
      totalEntries u ≤ totalEntries t + idxs.length + 2 := by
  have hrec := putRecordStore_ok_of_lt t t.db.length r (by omega)
  have htot1 : totalEntries { t with db := alPut t.db t.db.length r } ≤
      totalEntries t + 1 := by
    rw [totalEntries_set_db]
    have := alPut_length_le t.db t.db.length r
    unfold totalEntries
    omega
  have hcov1 : ∀ j, j < idxs.length →
      ∃ k, IndexMetaData.get_key schema (0 + j) = some k ∧
        k ∈ ({ t with db := alPut t.db t.db.length r } : CacheState).index_registry := by
    intro j hj
    obtain ⟨k, hk, hkm⟩ := hcov j hj
    exact ⟨k, by rwa [Nat.zero_add], hkm⟩
  obtain ⟨u2, hsec, hdb2, hpi2, hsdb2, hreg2, hcap2, htot2⟩ :=
    build_secondary_ok r schema t.db.length idxs
      { t with db := alPut t.db t.db.length r } 0 hcov1
      (by show _ ≤ t.capacity; omega)
  have hc2 : u2.capacity = t.capacity := hcap2
  have hprim := putPrimaryStore_ok_of_lt u2 (record_lookup_key r) t.db.length
    (by rw [hc2]; omega)
  have hfin : LmdbCache.insert_with_txn t r schema idxs = .ok { u2 with primary_index := alPut u2.primary_index (record_lookup_key r) t.db.length } := by
    simp only [LmdbCache.insert_with_txn, hrec, build_indexes, hsec, hprim]
  refine ⟨_, hfin, ?_, ?_, ?_, ?_, ?_, ?_⟩
  · simpa using hdb2
  · show alPut u2.primary_index (record_lookup_key r) t.db.length = _
    rw [hpi2]
  · simpa using hsdb2
  · simpa using hreg2
  · simpa using hcap2
  · show totalEntries { u2 with primary_index := alPut u2.primary_index (record_lookup_key r) t.db.length } ≤ _
    have h1 := alPut_length_le u2.primary_index (record_lookup_key r) t.db.length
    have h2 := alPut_length_le t.db t.db.length r
    unfold totalEntries at htot2 ⊢
    dsimp only at htot2 ⊢
    omega


/-! ## Claim theorems -/

/-- C1: Round trip — for every valid record `R` whose schema is registered
(identifier present, schema blob in the catalog, every secondary index
registered, room in the environment), inserting `R` and then calling `get`
with `R`'s primary lookup key returns a record equal to `R`. -/
theorem C1_round_trip (s : CacheState) (r : Record) (sid : SchemaIdentifier)
    (schema : Schema) (idxs : List IndexDefinition)
    (hsid : r.schema_id = some sid)
    (hcat : alGet s.schema_db (get_schema_key sid) = some (.schemaBlob schema idxs))
    (hcov : ∀ j, j < idxs.length →
      ∃ k, IndexMetaData.get_key schema j = some k ∧ k ∈ s.index_registry)
    (hcap : totalEntries s + idxs.length + 2 ≤ s.capacity) :
    ∃ t, LmdbCache.insert s r = .ok t ∧
      LmdbCache.get t (record_lookup_key r) = .ok r := by
  have hres := get_schema_and_indexes_from_record_ok s r sid schema idxs hsid hcat
  obtain ⟨u, hins, hdb, hpi, _, _, _, _⟩ := insert_with_txn_ok s r schema idxs hcov hcap
  refine ⟨u, ?_, ?_⟩
  · simp only [LmdbCache.insert, hres, hins]
  · simp only [LmdbCache.get, LmdbCache.get_with_txn, getPrimaryStore, getRecordStore,
      hpi, hdb, alGet_alPut_self]

/-- C1 witness: concrete instance on `stIdx` (schema `schemaA` with one
`SortedInverted` index registered) and record `rA`. -/
theorem C1_round_trip_witness :
    ∃ t, LmdbCache.insert stIdx rA = .ok t ∧
      LmdbCache.get t (record_lookup_key rA) = .ok rA :=
  C1_round_trip stIdx rA sidA schemaA [.sortedInverted [0]] rfl (by decide)
    (by
      intro j hj
      have hj0 : j = 0 := by simpa using hj
      subst hj0
      exact ⟨100000, by decide, by decide⟩)
    (by decide)

/-- C2: Atomicity of mutations — whenever a public mutating operation
(`insert`, `delete`, `update`) returns an error, the state it leaves
behind (primary store, primary-key index, secondary indexes, schema
catalog, registry) is exactly the pre-operation state. -/
theorem C2_mutation_atomicity (s : CacheState) (r new : Record) (key : List Nat)
    (e : CacheError) (s1 : CacheState) :
    (LmdbCache.insert s r = .err e s1 → s1 = s) ∧
    (LmdbCache.delete s key = .err e s1 → s1 = s) ∧
    (LmdbCache.update s key new = .err e s1 → s1 = s) := by
  refine ⟨?_, ?_, ?_⟩ <;> intro h
  · unfold LmdbCache.insert at h
    repeat' split at h
    all_goals simp_all
  · unfold LmdbCache.delete at h
    repeat' split at h
    all_goals simp_all
  · unfold LmdbCache.update at h
    repeat' split at h
    all_goals simp_all

/-- C2 witness: a concrete failing insert (missing schema identifier) on
`st0`, whose error leaves the state unchanged by the theorem. -/
theorem C2_mutation_atomicity_witness :
    LmdbCache.insert st0 ⟨none, []⟩ = .err .schemaIdentifierNotFound st0 ∧
    st0 = st0 :=
  ⟨by decide,
   (C2_mutation_atomicity st0 ⟨none, []⟩ rA [] .schemaIdentifierNotFound st0).1
     (by decide)⟩

/-- C3 (failing input for the id-reuse claim): in `stAB` the primary store
holds `rA` at internal id 0 and `rB` at internal id 1; deleting `rA` drops
the entry count back to 1, so the next insert (`rC`) allocates internal
id 1 again and OVERWRITES the live primary-store entry of `rB` — `rB`'s
lookup key afterwards resolves to `rC`. -/
theorem C3_internal_id_reuse :
    LmdbCache.get stAB (record_lookup_key rB) = .ok rB ∧
    LmdbCache.delete stAB (record_lookup_key rA) = .ok stDel ∧
    alGet stDel.db 1 = some rB ∧
    LmdbCache.insert stDel rC = .ok stReuse ∧
    alGet stReuse.db 1 = some rC ∧
    LmdbCache.get stReuse (record_lookup_key rB) = .ok rC ∧
    rB ≠ rC := by decide

/-- C5: a record whose schema identifier is absent is rejected with
`SchemaIdentifierNotFound`, and one whose identifier is not in the catalog
fails with the schema-lookup not-found error; in both cases the state is
unchanged. -/
theorem C5_insert_schema_not_found (s : CacheState) (r : Record)
    (sid : SchemaIdentifier) :
    (r.schema_id = none →
      LmdbCache.insert s r = .err .schemaIdentifierNotFound s) ∧
    (r.schema_id = some sid →
      alGet s.schema_db (get_schema_key sid) = none →
      LmdbCache.insert s r = .err (.queryError (.getValue .notFound)) s) := by
  constructor
  · intro h
    simp [LmdbCache.insert, LmdbCache.get_schema_and_indexes_from_record, h]
  · intro h hcat
    simp [LmdbCache.insert, LmdbCache.get_schema_and_indexes_from_record, h,
      LmdbCache.get_schema_and_indexes, getSchemaStore, hcat]

/-- C5 witness: both rejection cases on the fresh environment `st0`. -/
theorem C5_insert_schema_not_found_witness :
    LmdbCache.insert st0 ⟨none, [.fInt 1]⟩ = .err .schemaIdentifierNotFound st0 ∧
    LmdbCache.insert st0 rA = .err (.queryError (.getValue .notFound)) st0 :=
  ⟨(C5_insert_schema_not_found st0 ⟨none, [.fInt 1]⟩ sidA).1 rfl,
   (C5_insert_schema_not_found st0 rA sidA).2 rfl (by decide)⟩


/-! ## Inversion and frame lemmas for the store primitives -/

theorem putRecordStore_ok_inv {t : CacheState} {id : Nat} {r : Record}
    {u : CacheState} (h : putRecordStore t id r = .ok u) :
    u = { t with db := alPut t.db id r } := by
  unfold putRecordStore at h
  repeat' split at h
  all_goals simp_all

theorem putPrimaryStore_ok_inv {t : CacheState} {key : List Nat} {id : Nat}
    {u : CacheState} (h : putPrimaryStore t key id = .ok u) :
    u = { t with primary_index := alPut t.primary_index key id } := by
  unfold putPrimaryStore at h
  repeat' split at h
  all_goals simp_all

theorem delRecordStore_ok_inv {t : CacheState} {id : Nat} {u : CacheState}
    (h : delRecordStore t id = .ok u) :
    u = { t with db := alDel t.db id } := by
  unfold delRecordStore at h
  repeat' split at h
  all_goals simp_all

theorem delPrimaryStore_ok_inv {t : CacheState} {key : List Nat} {u : CacheState}
    (h : delPrimaryStore t key = .ok u) :
    u = { t with primary_index := alDel t.primary_index key } := by
  unfold delPrimaryStore at h
  repeat' split at h
  all_goals simp_all

theorem putSecondaryStore_ok_frame {t : CacheState} {dbk : Nat} {k : List Nat}
    {id : Nat} {u : CacheState} (h : putSecondaryStore t dbk k id = .ok u) :
    u.db = t.db ∧ u.primary_index = t.primary_index ∧ u.schema_db = t.schema_db ∧
    u.index_registry = t.index_registry ∧ u.capacity = t.capacity := by
  unfold putSecondaryStore at h
  by_cases hdup : (k, id) ∈ (alGet t.index_dbs dbk).getD []
  · simp only [hdup, ite_true] at h
    injection h with h2
    cases h2
    exact ⟨rfl, rfl, rfl, rfl, rfl⟩
  · by_cases hlt : totalEntries t < t.capacity
    · simp only [hdup, hlt, ite_true, ite_false] at h
      injection h with h2
      cases h2
      exact ⟨rfl, rfl, rfl, rfl, rfl⟩
    · simp [hdup, hlt] at h

theorem delSecondaryStore_ok_frame {t : CacheState} {dbk : Nat} {k : List Nat}
    {id : Nat} {u : CacheState} (h : delSecondaryStore t dbk k id = .ok u) :
    u.db = t.db ∧ u.primary_index = t.primary_index ∧ u.schema_db = t.schema_db ∧
    u.index_registry = t.index_registry ∧ u.capacity = t.capacity := by
  unfold delSecondaryStore at h
  by_cases hdup : (k, id) ∈ (alGet t.index_dbs dbk).getD []
  · simp only [hdup, ite_true] at h
    injection h with h2
    cases h2
    exact ⟨rfl, rfl, rfl, rfl, rfl⟩
  · simp [hdup] at h

theorem build_secondary_ok_frame (r : Record) (schema : Schema) (id : Nat)
    (idxs : List IndexDefinition) :
    ∀ (t : CacheState) (i : Nat) (u : CacheState),
    build_secondary r schema id t i idxs = .ok u →
    u.db = t.db ∧ u.primary_index = t.primary_index ∧ u.schema_db = t.schema_db ∧
    u.index_registry = t.index_registry ∧ u.capacity = t.capacity := by
  induction idxs with
  | nil =>
    intro t i u h
    simp only [build_secondary] at h
    simp_all
  | cons d rest ih =>
    intro t i u h
    simp only [build_secondary] at h
    split at h
    · simp_all
    · simp_all
    · rename_i dbk hdb
      split at h
      · simp_all
      · rename_i t2 hput
        obtain ⟨e1, e2, e3, e4, e5⟩ := putSecondaryStore_ok_frame hput
        obtain ⟨f1, f2, f3, f4, f5⟩ := ih t2 (i + 1) u h
        exact ⟨f1.trans e1, f2.trans e2, f3.trans e3, f4.trans e4, f5.trans e5⟩

theorem delete_secondary_ok_frame (r : Record) (schema : Schema) (id : Nat)
    (idxs : List IndexDefinition) :
    ∀ (t : CacheState) (i : Nat) (u : CacheState),
    delete_secondary r schema id t i idxs = .ok u →
    u.db = t.db ∧ u.primary_index = t.primary_index ∧ u.schema_db = t.schema_db ∧
    u.index_registry = t.index_registry ∧ u.capacity = t.capacity := by
  induction idxs with
  | nil =>
    intro t i u h
    simp only [delete_secondary] at h
    simp_all
  | cons d rest ih =>
    intro t i u h
    simp only [delete_secondary] at h
    split at h
    · simp_all
    · simp_all
    · rename_i dbk hdb
      split at h
      · simp_all
      · rename_i t2 hdel
        obtain ⟨e1, e2, e3, e4, e5⟩ := delSecondaryStore_ok_frame hdel
        obtain ⟨f1, f2, f3, f4, f5⟩ := ih t2 (i + 1) u h
        exact ⟨f1.trans e1, f2.trans e2, f3.trans e3, f4.trans e4, f5.trans e5⟩

/-- Inversion of a successful `delete_record_with_txn`. -/
theorem delete_record_with_txn_ok_inv {t : CacheState} {key : List Nat}
    {id1 : Nat} {t1 : CacheState}
    (h : LmdbCache.delete_record_with_txn t key = .ok (id1, t1)) :
    t1 = { t with db := alDel t.db id1 } := by
  unfold LmdbCache.delete_record_with_txn at h
  split at h
  · simp_all
  · rename_i id hget
    split at h
    · simp_all
    · rename_i u hdel
      have hu := delRecordStore_ok_inv hdel
      have h2 : (id, u) = (id1, t1) := by simpa using h
      obtain ⟨rfl, rfl⟩ : id = id1 ∧ u = t1 := by simpa using h2
      exact hu

/-- Frame of a successful `delete_indexes`: the primary store, schema
catalog, registry and capacity are untouched. -/
theorem delete_indexes_ok_frame {t : CacheState} {r : Record} {schema : Schema}
    {idxs : List IndexDefinition} {key : List Nat} {id : Nat} {t1 : CacheState}
    (h : delete_indexes t r schema idxs key id = .ok t1) :
    t1.db = t.db ∧ t1.schema_db = t.schema_db ∧
    t1.index_registry = t.index_registry ∧ t1.capacity = t.capacity := by
  unfold delete_indexes at h
  cases hsec : delete_secondary r schema id t 0 idxs with
  | err e => simp [hsec] at h
  | panicked => simp [hsec] at h
  | ok u1 =>
    obtain ⟨e1, e2, e3, e4, e5⟩ := delete_secondary_ok_frame r schema id idxs t 0 u1 hsec
    simp only [hsec] at h
    cases hprim : delPrimaryStore u1 key with
    | error e => simp [hprim] at h
    | ok u2 =>
      have hu2 := delPrimaryStore_ok_inv hprim
      simp only [hprim] at h
      have hu2t1 : u2 = t1 := by simpa using h
      subst hu2t1
      rw [hu2]
      exact ⟨e1, e3, e4, e5⟩

/-- `delete_with_txn` touches only the primary store, the primary-key
index, and the secondary-index sub-stores: the schema catalog and the
index registry (and the capacity) are untouched. -/
theorem delete_with_txn_ok_frame {t : CacheState} {key : List Nat} {r : Record}
    {schema : Schema} {idxs : List IndexDefinition} {t1 : CacheState}
    (h : LmdbCache.delete_with_txn t key r schema idxs = .ok t1) :
    t1.schema_db = t.schema_db ∧ t1.index_registry = t.index_registry ∧
    t1.capacity = t.capacity := by
  unfold LmdbCache.delete_with_txn at h
  cases hrec : LmdbCache.delete_record_with_txn t key with
  | error e => simp [hrec] at h
  | ok p =>
    obtain ⟨id0, t0⟩ := p
    simp only [hrec] at h
    have ht0 := delete_record_with_txn_ok_inv hrec
    obtain ⟨f1, f2, f3, f4⟩ := delete_indexes_ok_frame h
    refine ⟨?_, ?_, ?_⟩
    · rw [f2, ht0]
    · rw [f3, ht0]
    · rw [f4, ht0]


/-! ## No-panic lemmas and the registration phase -/

theorem get_schema_and_indexes_ne_panicked (s : CacheState)
    (sid : SchemaIdentifier) :
    LmdbCache.get_schema_and_indexes s sid ≠ .panicked := by
  unfold LmdbCache.get_schema_and_indexes
  split <;> simp

theorem get_schema_and_indexes_from_record_ne_panicked (s : CacheState)
    (r : Record) :
    LmdbCache.get_schema_and_indexes_from_record s r ≠ .panicked := by
  unfold LmdbCache.get_schema_and_indexes_from_record
  split
  · simp
  · exact get_schema_and_indexes_ne_panicked s _

theorem get_with_txn_ne_panicked (s : CacheState) (key : List Nat) :
    LmdbCache.get_with_txn s key ≠ .panicked := by
  unfold LmdbCache.get_with_txn
  split <;> [simp; split <;> simp]

theorem get_schema_from_reverse_key_ne_panicked (s : CacheState) (name : String) :
    LmdbCache.get_schema_from_reverse_key s name ≠ .panicked := by
  unfold LmdbCache.get_schema_from_reverse_key
  split
  · simp
  · exact get_schema_and_indexes_ne_panicked s _
  · simp

theorem build_secondary_no_panic (r : Record) (schema : Schema) (id : Nat)
    (idxs : List IndexDefinition) :
    ∀ (t : CacheState) (i : Nat),
    (∀ j, j < idxs.length →
      ∃ k, IndexMetaData.get_key schema (i + j) = some k ∧ k ∈ t.index_registry) →
    build_secondary r schema id t i idxs ≠ .panicked := by
  induction idxs with
  | nil => intro t i _; simp [build_secondary]
  | cons d rest ih =>
    intro t i hcov
    obtain ⟨k, hk, hkm⟩ := hcov 0 (by simp)
    rw [Nat.add_zero] at hk
    have hgdb : IndexMetaData.get_db t schema i = .ok k := by
      unfold IndexMetaData.get_db
      rw [hk]
      simp [hkm]
    simp only [build_secondary, hgdb]
    cases hput : putSecondaryStore t k (secondary_index_key r d) id with
    | error e => simp
    | ok t2 =>
      have hreg := (putSecondaryStore_ok_frame hput).2.2.2.1
      apply ih t2 (i + 1)
      intro j hj
      obtain ⟨k2, hk2, hk2m⟩ := hcov (j + 1) (by simpa using hj)
      rw [show i + (j + 1) = i + 1 + j by omega] at hk2
      exact ⟨k2, hk2, by rw [hreg]; exact hk2m⟩

theorem delete_secondary_no_panic (r : Record) (schema : Schema) (id : Nat)
    (idxs : List IndexDefinition) :
    ∀ (t : CacheState) (i : Nat),
    (∀ j, j < idxs.length →
      ∃ k, IndexMetaData.get_key schema (i + j) = some k ∧ k ∈ t.index_registry) →
    delete_secondary r schema id t i idxs ≠ .panicked := by
  induction idxs with
  | nil => intro t i _; simp [delete_secondary]
  | cons d rest ih =>
    intro t i hcov
    obtain ⟨k, hk, hkm⟩ := hcov 0 (by simp)
    rw [Nat.add_zero] at hk
    have hgdb : IndexMetaData.get_db t schema i = .ok k := by
      unfold IndexMetaData.get_db
      rw [hk]
      simp [hkm]
    simp only [delete_secondary, hgdb]
    cases hdel : delSecondaryStore t k (secondary_index_key r d) id with
    | error e => simp
    | ok t2 =>
      have hreg := (delSecondaryStore_ok_frame hdel).2.2.2.1
      apply ih t2 (i + 1)
      intro j hj
      obtain ⟨k2, hk2, hk2m⟩ := hcov (j + 1) (by simpa using hj)
      rw [show i + (j + 1) = i + 1 + j by omega] at hk2
      exact ⟨k2, hk2, by rw [hreg]; exact hk2m⟩

theorem insert_with_txn_no_panic (t : CacheState) (r : Record) (schema : Schema)
    (idxs : List IndexDefinition)
    (hcov : ∀ j, j < idxs.length →
      ∃ k, IndexMetaData.get_key schema j = some k ∧ k ∈ t.index_registry) :
    LmdbCache.insert_with_txn t r schema idxs ≠ .panicked := by
  unfold LmdbCache.insert_with_txn
  cases hput : putRecordStore t t.db.length r with
  | error e => simp [hput]
  | ok t1 =>
    simp only [hput]
    unfold build_indexes
    cases hsec : build_secondary r schema t.db.length t1 0 idxs with
    | panicked =>
      exfalso
      apply build_secondary_no_panic r schema t.db.length idxs t1 0 ?_ hsec
      intro j hj
      obtain ⟨k, hk, hkm⟩ := hcov j hj
      have ht1 := putRecordStore_ok_inv hput
      exact ⟨k, by simpa using hk, by rw [ht1]; exact hkm⟩
    | err e => simp [hsec]
    | ok u =>
      simp only [hsec]
      cases hprim : putPrimaryStore u (record_lookup_key r) t.db.length <;> simp [hprim]

theorem delete_with_txn_no_panic (t : CacheState) (key : List Nat) (r : Record)
    (schema : Schema) (idxs : List IndexDefinition)
    (hcov : ∀ j, j < idxs.length →
      ∃ k, IndexMetaData.get_key schema j = some k ∧ k ∈ t.index_registry) :
    LmdbCache.delete_with_txn t key r schema idxs ≠ .panicked := by
  unfold LmdbCache.delete_with_txn
  cases hrec : LmdbCache.delete_record_with_txn t key with
  | error e => simp [hrec]
  | ok p =>
    obtain ⟨id0, t0⟩ := p
    simp only [hrec]
    have ht0 := delete_record_with_txn_ok_inv hrec
    unfold delete_indexes
    cases hsec : delete_secondary r schema id0 t0 0 idxs with
    | panicked =>
      exfalso
      apply delete_secondary_no_panic r schema id0 idxs t0 0 ?_ hsec
      intro j hj
      obtain ⟨k, hk, hkm⟩ := hcov j hj
      exact ⟨k, by simpa using hk, by rw [ht0]; exact hkm⟩
    | err e => simp [hsec]
    | ok u =>
      simp only [hsec]
      cases hprim : delPrimaryStore u key <;> simp [hprim]

theorem update_with_txn_no_panic (t : CacheState) (key : List Nat)
    (old new : Record) (schema : Schema) (idxs : List IndexDefinition)
    (hcov : ∀ j, j < idxs.length →
      ∃ k, IndexMetaData.get_key schema j = some k ∧ k ∈ t.index_registry) :
    LmdbCache.update_with_txn t key old new schema idxs ≠ .panicked := by
  unfold LmdbCache.update_with_txn
  cases hdel : LmdbCache.delete_with_txn t key old schema idxs with
  | panicked => exact absurd hdel (delete_with_txn_no_panic t key old schema idxs hcov)
  | err e => simp [hdel]
  | ok t1 =>
    simp only [hdel]
    have hreg := (delete_with_txn_ok_frame hdel).2.1
    cases hins : LmdbCache.insert_with_txn t1 new schema idxs with
    | panicked =>
      exfalso
      apply insert_with_txn_no_panic t1 new schema idxs ?_ hins
      intro j hj
      obtain ⟨k, hk, hkm⟩ := hcov j hj
      exact ⟨k, hk, by rw [hreg]; exact hkm⟩
    | err e => simp [hins]
    | ok u => simp [hins]

theorem insert_schema_with_txn_ne_panicked (t : CacheState) (schema : Schema)
    (name : String) (idxs : List IndexDefinition) (sid : SchemaIdentifier)
    (hid : schema.identifier = some sid) :
    LmdbCache.insert_schema_with_txn t schema name idxs ≠ .panicked := by
  unfold LmdbCache.insert_schema_with_txn
  rw [hid]
  cases h1 : putSchemaStore t (get_schema_key sid) (.schemaBlob schema idxs) with
  | error e => simp [h1]
  | ok t1 =>
    simp only [h1]
    cases h2 : putSchemaStore t1 (get_schema_reverse_key name) (.sidBlob sid) <;> simp [h2]

theorem init_index_db_frame (t : CacheState) (k : Nat) :
    (init_index_db t k).db = t.db ∧
    (init_index_db t k).primary_index = t.primary_index ∧
    (init_index_db t k).schema_db = t.schema_db ∧
    (init_index_db t k).index_registry = t.index_registry ∧
    (init_index_db t k).capacity = t.capacity ∧
    totalEntries (init_index_db t k) = totalEntries t := by
  unfold init_index_db
  by_cases hx : (alGet t.index_dbs k).isSome
  · simp [hx]
  · have hn : alGet t.index_dbs k = none := Option.not_isSome_iff_eq_none.mp hx
    refine ⟨by simp [hx], by simp [hx], by simp [hx], by simp [hx], by simp [hx], ?_⟩
    simp only [hx, Bool.false_eq_true, if_false, ite_false]
    unfold totalEntries
    dsimp only
    rw [sum_len_alPut_nil_of_none t.index_dbs k hn]

theorem insert_index_facts (t : CacheState) (k : Nat) :
    k ∈ (IndexMetaData.insert_index t k).index_registry ∧
    (∀ k2, k2 ∈ t.index_registry → k2 ∈ (IndexMetaData.insert_index t k).index_registry) := by
  constructor
  · unfold IndexMetaData.insert_index
    dsimp only
    split
    · assumption
    · exact List.mem_cons_self k _
  · intro k2 h2
    unfold IndexMetaData.insert_index
    dsimp only
    split
    · exact h2
    · exact List.mem_cons_of_mem k h2

/-- The pre-transaction registration phase of `insert_schema` succeeds when
the schema has an identifier; it leaves every persistent sub-store (and
the total entry count) unchanged and extends the in-memory registry with
every index key. -/
theorem register_indexes_ok (schema : Schema) (sid : SchemaIdentifier)
    (hid : schema.identifier = some sid) (idxs : List IndexDefinition) :
    ∀ (t : CacheState) (i : Nat),
    ∃ u, LmdbCache.register_indexes schema t i idxs = .ok u ∧
      u.db = t.db ∧ u.primary_index = t.primary_index ∧ u.schema_db = t.schema_db ∧
      u.capacity = t.capacity ∧ totalEntries u = totalEntries t ∧
      (∀ k, k ∈ t.index_registry → k ∈ u.index_registry) ∧
      (∀ j, j < idxs.length →
        ((sid.id * 100000 + (i + j)) % 2 ^ 64) ∈ u.index_registry) := by
  induction idxs with
  | nil =>
    intro t i
    exact ⟨t, rfl, rfl, rfl, rfl, rfl, rfl, fun _ h => h, by simp⟩
  | cons d rest ih =>
    intro t i
    have hkey : IndexMetaData.get_key schema i =
        some ((sid.id * 100000 + i) % 2 ^ 64) := by
      simp [IndexMetaData.get_key, hid]
    obtain ⟨i1, i2, i3, i4, i5, i6⟩ :=
      init_index_db_frame t ((sid.id * 100000 + i) % 2 ^ 64)
    obtain ⟨m1, m2⟩ :=
      insert_index_facts (init_index_db t ((sid.id * 100000 + i) % 2 ^ 64))
        ((sid.id * 100000 + i) % 2 ^ 64)
    obtain ⟨u, hrec, h1, h2, h3, h4, h5, hmono, hcov⟩ :=
      ih (IndexMetaData.insert_index
        (init_index_db t ((sid.id * 100000 + i) % 2 ^ 64))
        ((sid.id * 100000 + i) % 2 ^ 64)) (i + 1)
    refine ⟨u, ?_, ?_, ?_, ?_, ?_, ?_, ?_, ?_⟩
    · simp only [LmdbCache.register_indexes, hkey]
      exact hrec
    · rw [h1]; exact i1
    · rw [h2]; exact i2
    · rw [h3]; exact i3
    · rw [h4]; exact i5
    · rw [h5]; exact i6
    · intro k hk
      apply hmono
      apply m2
      rw [i4]
      exact hk
    · intro j hj
      match j with
      | 0 => exact hmono _ (by rw [Nat.add_zero]; exact m1)
      | Nat.succ j2 =>
        have := hcov j2 (by simpa using hj)
        rw [show i + 1 + j2 = i + (j2 + 1) by omega] at this
        exact this


/-- C7 counterexample: `insert_schema` called with a schema whose
identifier is `None` — a caller-constructible input — panics
(`identifier.unwrap()` in `insert_schema_with_txn`) instead of returning a
typed error. -/
theorem C7_insert_schema_panics :
    LmdbCache.insert_schema st0 "x" ⟨none, []⟩ [] = .panicked := by decide

/-- C7 (amended): every public operation returns a typed result and does
not panic, PROVIDED the schema identifier involved is present and every
index definition consulted resolves to a registered index sub-store;
`insert_schema` on an identifier-less schema (and an unregistered-index
lookup) panics. -/
theorem C7_no_panic_amended (s : CacheState) (key : List Nat) (r : Record)
    (name : String) (schema : Schema) (idxs : List IndexDefinition)
    (sid : SchemaIdentifier) (hid : schema.identifier = some sid)
    (hcovIns : ∀ sch idl,
      LmdbCache.get_schema_and_indexes_from_record s r = .ok (sch, idl) →
      ∀ j, j < idl.length →
        ∃ k, IndexMetaData.get_key sch j = some k ∧ k ∈ s.index_registry)
    (hcovOld : ∀ old sch idl, LmdbCache.get_with_txn s key = .ok old →
      LmdbCache.get_schema_and_indexes_from_record s old = .ok (sch, idl) →
      ∀ j, j < idl.length →
        ∃ k, IndexMetaData.get_key sch j = some k ∧ k ∈ s.index_registry) :
    LmdbCache.get s key ≠ .panicked ∧
    LmdbCache.get_schema s sid ≠ .panicked ∧
    LmdbCache.get_schema_and_indexes_by_name s name ≠ .panicked ∧
    LmdbCache.insert s r ≠ .panicked ∧
    LmdbCache.delete s key ≠ .panicked ∧
    LmdbCache.update s key r ≠ .panicked ∧
    LmdbCache.insert_schema s name schema idxs ≠ .panicked := by
  refine ⟨?_, ?_, ?_, ?_, ?_, ?_, ?_⟩
  · exact get_with_txn_ne_panicked s key
  · unfold LmdbCache.get_schema
    cases hres : LmdbCache.get_schema_and_indexes s sid with
    | ok p => simp [hres]
    | err e => simp [hres]
    | panicked => exact absurd hres (get_schema_and_indexes_ne_panicked s sid)
  · unfold LmdbCache.get_schema_and_indexes_by_name
    exact get_schema_from_reverse_key_ne_panicked s name
  · unfold LmdbCache.insert
    cases hres : LmdbCache.get_schema_and_indexes_from_record s r with
    | err e => simp [hres]
    | panicked =>
      exact absurd hres (get_schema_and_indexes_from_record_ne_panicked s r)
    | ok p =>
      obtain ⟨sch, idl⟩ := p
      simp only [hres]
      cases hins : LmdbCache.insert_with_txn s r sch idl with
      | ok t => simp [hins]
      | err e => simp [hins]
      | panicked =>
        exact absurd hins (insert_with_txn_no_panic s r sch idl (hcovIns sch idl hres))
  · unfold LmdbCache.delete
    cases hget : LmdbCache.get_with_txn s key with
    | err e => simp [hget]
    | panicked => exact absurd hget (get_with_txn_ne_panicked s key)
    | ok old =>
      simp only [hget]
      cases hres : LmdbCache.get_schema_and_indexes_from_record s old with
      | err e => simp [hres]
      | panicked =>
        exact absurd hres (get_schema_and_indexes_from_record_ne_panicked s old)
      | ok p =>
        obtain ⟨sch, idl⟩ := p
        simp only [hres]
        cases hdel : LmdbCache.delete_with_txn s key old sch idl with
        | ok t => simp [hdel]
        | err e => simp [hdel]
        | panicked =>
          exact absurd hdel
            (delete_with_txn_no_panic s key old sch idl (hcovOld old sch idl hget hres))
  · unfold LmdbCache.update
    cases hget : LmdbCache.get_with_txn s key with
    | err e => simp [hget]
    | panicked => exact absurd hget (get_with_txn_ne_panicked s key)
    | ok old =>
      simp only [hget]
      cases hres : LmdbCache.get_schema_and_indexes_from_record s old with
      | err e => simp [hres]
      | panicked =>
        exact absurd hres (get_schema_and_indexes_from_record_ne_panicked s old)
      | ok p =>
        obtain ⟨sch, idl⟩ := p
        simp only [hres]
        cases hupd : LmdbCache.update_with_txn s key old r sch idl with
        | ok t => simp [hupd]
        | err e => simp [hupd]
        | panicked =>
          exact absurd hupd
            (update_with_txn_no_panic s key old r sch idl (hcovOld old sch idl hget hres))
  · unfold LmdbCache.insert_schema
    obtain ⟨u, hreg, _, _, _, _, _, _, _⟩ := register_indexes_ok schema sid hid idxs s 0
    simp only [hreg]
    cases htxn : LmdbCache.insert_schema_with_txn u schema name idxs with
    | ok t => simp [htxn]
    | err e => simp [htxn]
    | panicked =>
      exact absurd htxn (insert_schema_with_txn_ne_panicked u schema name idxs sid hid)

/-- C7 witness: on `stIdx` (schema and index registered), none of the
public operations panics. -/
theorem C7_no_panic_amended_witness :
    LmdbCache.get stIdx [] ≠ .panicked ∧
    LmdbCache.get_schema stIdx sidA ≠ .panicked ∧
    LmdbCache.get_schema_and_indexes_by_name stIdx "s" ≠ .panicked ∧
    LmdbCache.insert stIdx rA ≠ .panicked ∧
    LmdbCache.delete stIdx [] ≠ .panicked ∧
    LmdbCache.update stIdx [] rA ≠ .panicked ∧
    LmdbCache.insert_schema stIdx "s" schemaA [.sortedInverted [0]] ≠ .panicked :=
  C7_no_panic_amended stIdx [] rA "s" schemaA [.sortedInverted [0]] sidA rfl
    (by
      intro sch idl h j hj
      have hres : LmdbCache.get_schema_and_indexes_from_record stIdx rA =
          .ok (schemaA, [.sortedInverted [0]]) := by decide
      rw [hres] at h
      obtain ⟨rfl, rfl⟩ : schemaA = sch ∧ [IndexDefinition.sortedInverted [0]] = idl := by
        simpa using h
      have hj0 : j = 0 := by simpa using hj
      subst hj0
      exact ⟨100000, by decide, by decide⟩)
    (by
      intro old sch idl h
      have hg : LmdbCache.get_with_txn stIdx [] =
          .err (.queryError (.getValue .notFound)) := by decide
      rw [hg] at h
      exact absurd h (by simp))

/-- C8: in `insert_schema`, every secondary-index sub-store is created and
registered BEFORE the schema-writing transaction begins, and the
registration survives a failed transaction: after a failed `insert_schema`
the registry contains every new index key (and everything it contained
before) while the schema catalog, record store and primary index are
unchanged. -/
theorem C8_index_registration_survives (s : CacheState) (name : String)
    (schema : Schema) (idxs : List IndexDefinition) (sid : SchemaIdentifier)
    (hid : schema.identifier = some sid) (e : CacheError) (s1 : CacheState)
    (h : LmdbCache.insert_schema s name schema idxs = .err e s1) :
    s1.schema_db = s.schema_db ∧ s1.db = s.db ∧
    s1.primary_index = s.primary_index ∧
    (∀ k, k ∈ s.index_registry → k ∈ s1.index_registry) ∧
    (∀ j, j < idxs.length →
      ((sid.id * 100000 + j) % 2 ^ 64) ∈ s1.index_registry) := by
  obtain ⟨u, hreg, h1, h2, h3, h4, h5, hmono, hcov⟩ :=
    register_indexes_ok schema sid hid idxs s 0
  unfold LmdbCache.insert_schema at h
  simp only [hreg] at h
  cases htxn : LmdbCache.insert_schema_with_txn u schema name idxs with
  | ok t => simp [htxn] at h
  | panicked =>
    exact absurd htxn (insert_schema_with_txn_ne_panicked u schema name idxs sid hid)
  | err e2 =>
    simp only [htxn] at h
    obtain ⟨he, hu⟩ : e2 = e ∧ u = s1 := by simpa using h
    subst hu
    refine ⟨h3, h1, h2, hmono, ?_⟩
    intro j hj
    have := hcov j hj
    simpa using this

/-- C8 witness: on a zero-capacity environment the schema write fails with
`MDB_MAP_FULL`, yet the registry keeps key 100000 (schema id 1, ordinal 0)
while all persistent stores are unchanged. -/
theorem C8_index_registration_survives_witness :
    stRegFail.schema_db = (emptyState 0).schema_db ∧
    stRegFail.db = (emptyState 0).db ∧
    stRegFail.primary_index = (emptyState 0).primary_index ∧
    (∀ k, k ∈ (emptyState 0).index_registry → k ∈ stRegFail.index_registry) ∧
    (∀ j, j < ([IndexDefinition.sortedInverted [0]] : List IndexDefinition).length →
      ((sidA.id * 100000 + j) % 2 ^ 64) ∈ stRegFail.index_registry) :=
  C8_index_registration_survives (emptyState 0) "s" schemaA
    [.sortedInverted [0]] sidA rfl (.queryError (.insertValue .mapFull))
    stRegFail (by decide)

/-- C9: the packing `schemaId * 100000 + ordinal` is injective on distinct
(schemaId, ordinal) pairs while ordinals stay below 100000 (and ids fit in
`u32`), and two distinct pairs with an ordinal ≥ 100000 collide. -/
theorem C9_registry_key_packing :
    (∀ (sch1 sch2 : Schema) (sid1 sid2 : SchemaIdentifier) (i1 i2 : Nat),
      sch1.identifier = some sid1 → sch2.identifier = some sid2 →
      sid1.id < 2 ^ 32 → sid2.id < 2 ^ 32 → i1 < 100000 → i2 < 100000 →
      (sid1.id, i1) ≠ (sid2.id, i2) →
      IndexMetaData.get_key sch1 i1 ≠ IndexMetaData.get_key sch2 i2) ∧
    (∃ (sch1 sch2 : Schema) (sid1 sid2 : SchemaIdentifier) (i1 i2 : Nat),
      sch1.identifier = some sid1 ∧ sch2.identifier = some sid2 ∧
      (sid1.id, i1) ≠ (sid2.id, i2) ∧ 100000 ≤ i2 ∧
      IndexMetaData.get_key sch1 i1 = IndexMetaData.get_key sch2 i2) := by
  constructor
  · intro sch1 sch2 sid1 sid2 i1 i2 h1 h2 hb1 hb2 hi1 hi2 hne heq
    apply hne
    simp only [IndexMetaData.get_key, h1, h2, Option.map_some'] at heq
    have hm1 : sid1.id * 100000 ≤ (2 ^ 32 - 1) * 100000 :=
      Nat.mul_le_mul_right _ (by omega)
    have hm2 : sid2.id * 100000 ≤ (2 ^ 32 - 1) * 100000 :=
      Nat.mul_le_mul_right _ (by omega)
    have hlt1 : sid1.id * 100000 + i1 < 2 ^ 64 := by
      have : (2 ^ 32 - 1) * 100000 + 100000 < 2 ^ 64 := by norm_num
      omega
    have hlt2 : sid2.id * 100000 + i2 < 2 ^ 64 := by
      have : (2 ^ 32 - 1) * 100000 + 100000 < 2 ^ 64 := by norm_num
      omega
    rw [Nat.mod_eq_of_lt hlt1, Nat.mod_eq_of_lt hlt2] at heq
    have heq2 : sid1.id * 100000 + i1 = sid2.id * 100000 + i2 := by simpa using heq
    have : sid1.id = sid2.id ∧ i1 = i2 := by omega
    rw [this.1, this.2]
  · exact ⟨⟨some ⟨1, 0⟩, []⟩, ⟨some ⟨0, 0⟩, []⟩, ⟨1, 0⟩, ⟨0, 0⟩, 0, 100000,
      rfl, rfl, by decide, by omega, by decide⟩

/-- C9 witness: the injectivity half applied at two concrete distinct
pairs below the bound. -/
theorem C9_registry_key_packing_witness :
    IndexMetaData.get_key ⟨some ⟨1, 0⟩, []⟩ 2 ≠
      IndexMetaData.get_key ⟨some ⟨3, 0⟩, []⟩ 4 :=
  C9_registry_key_packing.1 ⟨some ⟨1, 0⟩, []⟩ ⟨some ⟨3, 0⟩, []⟩ ⟨1, 0⟩ ⟨3, 0⟩ 2 4
    rfl rfl (by norm_num) (by norm_num) (by norm_num) (by norm_num) (by decide)


/-! ## Schema-key disjointness and C6 -/

theorem beBytes_two (n : Nat) : beBytes 2 n = [n / 256 % 256, n % 256] := by
  simp [beBytes, List.range_succ]

theorem getLast_append_pair (P : List Nat) (a b : Nat) :
    (P ++ [a, b]).getLast? = some b := by
  rw [show P ++ [a, b] = (P ++ [a]) ++ [b] by simp]
  exact List.getLast?_concat _

/-- The last byte of a schema-record key is the low byte of the version. -/
theorem get_schema_key_getLast (sid : SchemaIdentifier) :
    (get_schema_key sid).getLast? = some (sid.version % 256) := by
  unfold get_schema_key
  rw [beBytes_two]
  exact getLast_append_pair _ _ _

/-- Schema-record keys of the same id but different version low bytes are
distinct. -/
theorem get_schema_key_ne_of_version (sid1 sid2 : SchemaIdentifier)
    (hv : sid1.version % 256 ≠ sid2.version % 256) :
    get_schema_key sid1 ≠ get_schema_key sid2 := by
  intro h
  apply hv
  have e1 := get_schema_key_getLast sid1
  have e2 := get_schema_key_getLast sid2
  rw [h, e2] at e1
  simpa using e1.symm

/-- The schema-record key namespace (starting `"sc#"`) and the name
reverse-key namespace (starting `"sch"`) never collide: they differ at
byte 2. -/
theorem get_schema_key_ne_reverse (sid : SchemaIdentifier) (nm : String) :
    get_schema_key sid ≠ get_schema_reverse_key nm := by
  intro h
  have e1 : (get_schema_key sid).get? 2 = some 35 := rfl
  have e2 : (get_schema_reverse_key nm).get? 2 = some 104 := by
    unfold get_schema_reverse_key
    rfl
  rw [h, e2] at e1
  exact absurd e1 (by simp)

/-- Success and effect of a full `insert_schema` when the schema has an
identifier and the environment has room for two entries: the schema blob
is stored under its exact (id, version) key and the name pointer is
overwritten to the new identifier. -/
theorem insert_schema_ok (s : CacheState) (name : String) (schema : Schema)
    (idxs : List IndexDefinition) (sid : SchemaIdentifier)
    (hid : schema.identifier = some sid)
    (hcap : totalEntries s + 2 ≤ s.capacity) :
    ∃ s1, LmdbCache.insert_schema s name schema idxs = .ok s1 ∧
      s1.db = s.db ∧ s1.primary_index = s.primary_index ∧
      s1.capacity = s.capacity ∧ totalEntries s1 ≤ totalEntries s + 2 ∧
      s1.schema_db = alPut (alPut s.schema_db (get_schema_key sid) (.schemaBlob schema idxs)) (get_schema_reverse_key name) (.sidBlob sid) := by
  obtain ⟨uA, hreg, a1, a2, a3, a4, a5, _, _⟩ :=
    register_indexes_ok schema sid hid idxs s 0
  have hput1 := putSchemaStore_ok_of_lt uA (get_schema_key sid)
    (.schemaBlob schema idxs) (by rw [a5, a4]; omega)
  have htot1 : totalEntries { uA with schema_db := alPut uA.schema_db (get_schema_key sid) (SchemaVal.schemaBlob schema idxs) } ≤ totalEntries s + 1 := by
    unfold totalEntries
    dsimp only
    have := alPut_length_le uA.schema_db (get_schema_key sid)
      (SchemaVal.schemaBlob schema idxs)
    unfold totalEntries at a5
    omega
  have hput2 := putSchemaStore_ok_of_lt
    { uA with schema_db := alPut uA.schema_db (get_schema_key sid) (SchemaVal.schemaBlob schema idxs) }
    (get_schema_reverse_key name) (.sidBlob sid)
    (by
      show _ < uA.capacity
      have hc := a4
      omega)
  refine ⟨{ uA with schema_db := alPut (alPut uA.schema_db (get_schema_key sid) (SchemaVal.schemaBlob schema idxs)) (get_schema_reverse_key name) (SchemaVal.sidBlob sid) }, ?_, ?_, ?_, ?_, ?_, ?_⟩
  · unfold LmdbCache.insert_schema
    simp only [hreg]
    unfold LmdbCache.insert_schema_with_txn
    simp only [hid, hput1, hput2]
  · exact a1
  · exact a2
  · exact a4
  · show totalEntries { uA with schema_db := alPut (alPut uA.schema_db (get_schema_key sid) (SchemaVal.schemaBlob schema idxs)) (get_schema_reverse_key name) (SchemaVal.sidBlob sid) } ≤ totalEntries s + 2
    unfold totalEntries
    dsimp only
    have h6 := alPut_length_le (alPut uA.schema_db (get_schema_key sid) (SchemaVal.schemaBlob schema idxs)) (get_schema_reverse_key name) (SchemaVal.sidBlob sid)
    have h7 := alPut_length_le uA.schema_db (get_schema_key sid)
      (SchemaVal.schemaBlob schema idxs)
    unfold totalEntries at a5
    omega
  · show alPut (alPut uA.schema_db (get_schema_key sid) (SchemaVal.schemaBlob schema idxs)) (get_schema_reverse_key name) (SchemaVal.sidBlob sid) = _
    rw [a3]

/-- C6: registering the same schema id at versions 1 and 2 (in that order,
under the same name) keeps both retrievable by exact identifier, while the
name pointer resolves to the most recently registered schema. -/
theorem C6_schema_versioning (s : CacheState) (name : String)
    (sch1 sch2 : Schema) (idxs1 idxs2 : List IndexDefinition) (i : Nat)
    (h1 : sch1.identifier = some ⟨i, 1⟩) (h2 : sch2.identifier = some ⟨i, 2⟩)
    (hcap : totalEntries s + 4 ≤ s.capacity) :
    ∃ s1 s2,
      LmdbCache.insert_schema s name sch1 idxs1 = .ok s1 ∧
      LmdbCache.insert_schema s1 name sch2 idxs2 = .ok s2 ∧
      LmdbCache.get_schema s2 ⟨i, 1⟩ = .ok sch1 ∧
      LmdbCache.get_schema s2 ⟨i, 2⟩ = .ok sch2 ∧
      LmdbCache.get_schema_and_indexes_by_name s2 name = .ok (sch2, idxs2) := by
  obtain ⟨s1, hins1, d1, p1, c1, t1, sdb1⟩ :=
    insert_schema_ok s name sch1 idxs1 ⟨i, 1⟩ h1 (by omega)
  obtain ⟨s2, hins2, d2, p2, c2, t2, sdb2⟩ :=
    insert_schema_ok s1 name sch2 idxs2 ⟨i, 2⟩ h2 (by rw [c1]; omega)
  have hk12 : get_schema_key ⟨i, 1⟩ ≠ get_schema_key ⟨i, 2⟩ :=
    get_schema_key_ne_of_version _ _ (by norm_num)
  have hknr1 : get_schema_key (⟨i, 1⟩ : SchemaIdentifier) ≠ get_schema_reverse_key name :=
    get_schema_key_ne_reverse _ _
  have hknr2 : get_schema_key (⟨i, 2⟩ : SchemaIdentifier) ≠ get_schema_reverse_key name :=
    get_schema_key_ne_reverse _ _
  refine ⟨s1, s2, hins1, hins2, ?_, ?_, ?_⟩
  · unfold LmdbCache.get_schema LmdbCache.get_schema_and_indexes getSchemaStore
    rw [sdb2, sdb1]
    rw [alGet_alPut_ne _ _ _ _ (Ne.symm hknr1), alGet_alPut_ne _ _ _ _ (Ne.symm hk12),
      alGet_alPut_ne _ _ _ _ (Ne.symm hknr1), alGet_alPut_self]
  · unfold LmdbCache.get_schema LmdbCache.get_schema_and_indexes getSchemaStore
    rw [sdb2]
    rw [alGet_alPut_ne _ _ _ _ (Ne.symm hknr2), alGet_alPut_self]
  · have hrev : getSchemaStore s2 (get_schema_reverse_key name) =
        .ok (.sidBlob ⟨i, 2⟩) := by
      unfold getSchemaStore
      rw [sdb2, alGet_alPut_self]
    unfold LmdbCache.get_schema_and_indexes_by_name
      LmdbCache.get_schema_from_reverse_key
    simp only [hrev]
    unfold LmdbCache.get_schema_and_indexes getSchemaStore
    rw [sdb2]
    rw [alGet_alPut_ne _ _ _ _ (Ne.symm hknr2), alGet_alPut_self]

/-- C6 witness: two registrations of id 7 at versions 1 and 2 under the
same name on the fresh environment. -/
theorem C6_schema_versioning_witness :
    ∃ s1 s2,
      LmdbCache.insert_schema st0 "v" ⟨some ⟨7, 1⟩, [⟨"a"⟩]⟩ [] = .ok s1 ∧
      LmdbCache.insert_schema s1 "v" ⟨some ⟨7, 2⟩, [⟨"b"⟩]⟩ [] = .ok s2 ∧
      LmdbCache.get_schema s2 ⟨7, 1⟩ = .ok ⟨some ⟨7, 1⟩, [⟨"a"⟩]⟩ ∧
      LmdbCache.get_schema s2 ⟨7, 2⟩ = .ok ⟨some ⟨7, 2⟩, [⟨"b"⟩]⟩ ∧
      LmdbCache.get_schema_and_indexes_by_name s2 "v" =
        .ok (⟨some ⟨7, 2⟩, [⟨"b"⟩]⟩, []) :=
  C6_schema_versioning st0 "v" ⟨some ⟨7, 1⟩, [⟨"a"⟩]⟩ ⟨some ⟨7, 2⟩, [⟨"b"⟩]⟩
    [] [] 7 rfl rfl (by decide)


/-! ## C4: update as delete-then-insert -/

/-- C4 counterexample: with a record lacking a schema identifier, `update`
succeeds (it resolves the schema from the OLD record), while the literal
composition delete-then-insert-in-one-transaction fails at the insert's
own schema resolution — so the two are not extensionally equal. -/
theorem C4_update_not_composition :
    LmdbCache.update stA (record_lookup_key rA) ⟨none, [.fInt 9]⟩ ≠
      LmdbCache.delete_then_insert_one_txn stA (record_lookup_key rA)
        ⟨none, [.fInt 9]⟩ := by decide

/-- C4 (amended): whenever the new record's schema identifier equals the
stored old record's, `update(key, newRecord)` reaches the same final state
and the same success/failure/panic outcome as delete(key) followed by
insert(newRecord) inside one transaction (error VALUES may differ only in
that `update` boxes insert-phase errors in `InternalError`); in
particular `update` is never an in-place field patch. -/
theorem C4_update_refinement (s : CacheState) (key : List Nat)
    (old new : Record)
    (hold : LmdbCache.get_with_txn s key = .ok old)
    (hsid : new.schema_id = old.schema_id) :
    MutRes.agrees (LmdbCache.update s key new)
      (LmdbCache.delete_then_insert_one_txn s key new) := by
  unfold LmdbCache.update LmdbCache.delete_then_insert_one_txn
  simp only [hold]
  cases hres : LmdbCache.get_schema_and_indexes_from_record s old with
  | err e => simp only [hres]; exact rfl
  | panicked => simp only [hres]; exact trivial
  | ok p =>
    obtain ⟨schema, idxs⟩ := p
    simp only [hres]
    unfold LmdbCache.update_with_txn
    cases hdel : LmdbCache.delete_with_txn s key old schema idxs with
    | err e => simp only [hdel]; exact rfl
    | panicked => simp only [hdel]; exact trivial
    | ok t1 =>
      simp only [hdel]
      have hsdb := (delete_with_txn_ok_frame hdel).1
      have hres2 : LmdbCache.get_schema_and_indexes_from_record t1 new =
          .ok (schema, idxs) := by
        cases hsido : old.schema_id with
        | none =>
          unfold LmdbCache.get_schema_and_indexes_from_record at hres
          rw [hsido] at hres
          exact absurd hres (by simp)
        | some sid =>
          unfold LmdbCache.get_schema_and_indexes_from_record at hres ⊢
          rw [hsido] at hres
          rw [hsid, hsido]
          unfold LmdbCache.get_schema_and_indexes getSchemaStore at hres ⊢
          rw [hsdb]
          exact hres
      simp only [hres2]
      cases hins : LmdbCache.insert_with_txn t1 new schema idxs with
      | ok t2 => simp only [hins]; exact rfl
      | err e => simp only [hins]; exact rfl
      | panicked => simp only [hins]; exact trivial

/-- C4 witness: updating `rA` to `rB` (same schema identifier) on `stA`
agrees with the composed delete-then-insert. -/
theorem C4_update_refinement_witness :
    MutRes.agrees (LmdbCache.update stA (record_lookup_key rA) rB)
      (LmdbCache.delete_then_insert_one_txn stA (record_lookup_key rA) rB) :=
  C4_update_refinement stA (record_lookup_key rA) rA rB (by decide) rfl


/-! ## C10: update never consults the new record's schema identifier -/

theorem alPut_length_of_mem {κ ν : Type} [DecidableEq κ] (l : List (κ × ν))
    (k : κ) (v : ν) (h : (alGet l k).isSome) :
    (alPut l k v).length = l.length := by
  induction l with
  | nil => simp [alGet] at h
  | cons p rest ih =>
    by_cases hp : p.1 = k
    · simp [alPut, hp]
    · simp only [alGet, hp, if_false] at h
      simp [alPut, hp, ih h]

theorem alPut_length_of_not_mem {κ ν : Type} [DecidableEq κ] (l : List (κ × ν))
    (k : κ) (v : ν) (h : alGet l k = none) :
    (alPut l k v).length = l.length + 1 := by
  induction l with
  | nil => simp [alPut]
  | cons p rest ih =>
    by_cases hp : p.1 = k
    · simp [alGet, hp] at h
    · simp only [alGet, hp, if_false] at h
      simp [alPut, hp, ih h]

theorem alPut_length_congr {κ ν : Type} [DecidableEq κ] (l : List (κ × ν))
    (k : κ) (v1 v2 : ν) : (alPut l k v1).length = (alPut l k v2).length := by
  by_cases h : (alGet l k).isSome
  · rw [alPut_length_of_mem _ _ _ h, alPut_length_of_mem _ _ _ h]
  · have hn := Option.not_isSome_iff_eq_none.mp h
    rw [alPut_length_of_not_mem _ _ _ hn, alPut_length_of_not_mem _ _ _ hn]

theorem record_lookup_key_values_congr (r1 r2 : Record)
    (h : r1.values = r2.values) :
    record_lookup_key r1 = record_lookup_key r2 := by
  unfold record_lookup_key
  rw [h]

theorem secondary_index_key_values_congr (r1 r2 : Record)
    (h : r1.values = r2.values) (d : IndexDefinition) :
    secondary_index_key r1 d = secondary_index_key r2 d := by
  cases d with
  | sortedInverted fs =>
    unfold secondary_index_key
    rw [h]

theorem build_secondary_values_congr (r1 r2 : Record) (schema : Schema)
    (id : Nat) (h : r1.values = r2.values) (idxs : List IndexDefinition) :
    ∀ (t : CacheState) (i : Nat),
    build_secondary r1 schema id t i idxs = build_secondary r2 schema id t i idxs := by
  induction idxs with
  | nil => intro t i; rfl
  | cons d rest ih =>
    intro t i
    simp only [build_secondary, secondary_index_key_values_congr r1 r2 h d]
    cases IndexMetaData.get_db t schema i with
    | panicked => rfl
    | err e => rfl
    | ok dbk =>
      dsimp only
      cases putSecondaryStore t dbk (secondary_index_key r2 d) id with
      | error e => rfl
      | ok t2 =>
        dsimp only
        exact ih t2 (i + 1)

theorem build_indexes_values_congr (t : CacheState) (r1 r2 : Record)
    (schema : Schema) (idxs : List IndexDefinition) (id : Nat)
    (h : r1.values = r2.values) :
    build_indexes t r1 schema idxs id = build_indexes t r2 schema idxs id := by
  unfold build_indexes
  rw [build_secondary_values_congr r1 r2 schema id h idxs t 0,
    record_lookup_key_values_congr r1 r2 h]

theorem totalEntries_set_db_of_len (t : CacheState) (d : List (Nat × Record))
    (h : d.length = t.db.length) :
    totalEntries { t with db := d } = totalEntries t := by
  unfold totalEntries
  dsimp only
  rw [h]

theorem putSecondaryStore_set_db (t : CacheState) (d : List (Nat × Record))
    (h : d.length = t.db.length) (dbk : Nat) (k : List Nat) (id : Nat) :
    putSecondaryStore { t with db := d } dbk k id =
      Except.map (fun u => { u with db := d }) (putSecondaryStore t dbk k id) := by
  unfold putSecondaryStore
  dsimp only
  rw [totalEntries_set_db_of_len t d h]
  by_cases h1 : (k, id) ∈ (alGet t.index_dbs dbk).getD []
  · simp [h1, Except.map]
  · by_cases h2 : totalEntries t < t.capacity
    · simp [h1, h2, Except.map]
    · simp [h1, h2, Except.map]

theorem putPrimaryStore_set_db (t : CacheState) (d : List (Nat × Record))
    (h : d.length = t.db.length) (key : List Nat) (id : Nat) :
    putPrimaryStore { t with db := d } key id =
      Except.map (fun u => { u with db := d }) (putPrimaryStore t key id) := by
  unfold putPrimaryStore
  dsimp only
  rw [totalEntries_set_db_of_len t d h]
  by_cases h1 : (alGet t.primary_index key).isSome
  · simp [h1, Except.map]
  · by_cases h2 : totalEntries t < t.capacity
    · simp [h1, h2, Except.map]
    · simp [h1, h2, Except.map]

theorem build_secondary_set_db (r : Record) (schema : Schema) (id : Nat)
    (idxs : List IndexDefinition) :
    ∀ (t : CacheState) (i : Nat) (d : List (Nat × Record)),
    d.length = t.db.length →
    build_secondary r schema id { t with db := d } i idxs =
      setDbRes d (build_secondary r schema id t i idxs) := by
  induction idxs with
  | nil => intro t i d h; rfl
  | cons dd rest ih =>
    intro t i d h
    have hgd : IndexMetaData.get_db { t with db := d } schema i =
        IndexMetaData.get_db t schema i := rfl
    simp only [build_secondary, hgd]
    cases hg : IndexMetaData.get_db t schema i with
    | panicked => rfl
    | err e => rfl
    | ok dbk =>
      dsimp only
      rw [putSecondaryStore_set_db t d h dbk (secondary_index_key r dd) id]
      cases hput : putSecondaryStore t dbk (secondary_index_key r dd) id with
      | error e => rfl
      | ok t2 =>
        simp only [Except.map]
        have ht2 : d.length = t2.db.length := by
          rw [(putSecondaryStore_ok_frame hput).1]
          exact h
        exact ih t2 (i + 1) d ht2

theorem build_secondary_ok_db (r : Record) (schema : Schema) (id : Nat)
    (idxs : List IndexDefinition) (t : CacheState) (i : Nat) (u : CacheState)
    (h : build_secondary r schema id t i idxs = .ok u) : u.db = t.db :=
  (build_secondary_ok_frame r schema id idxs t i u h).1

theorem build_indexes_set_db (t : CacheState) (r : Record) (schema : Schema)
    (idxs : List IndexDefinition) (id : Nat) (d : List (Nat × Record))
    (h : d.length = t.db.length) :
    build_indexes { t with db := d } r schema idxs id =
      setDbRes d (build_indexes t r schema idxs id) := by
  unfold build_indexes
  rw [build_secondary_set_db r schema id idxs t 0 d h]
  cases hsec : build_secondary r schema id t 0 idxs with
  | err e => rfl
  | panicked => rfl
  | ok u =>
    simp only [setDbRes]
    have hu : d.length = u.db.length := by
      rw [build_secondary_ok_db r schema id idxs t 0 u hsec]
      exact h
    rw [putPrimaryStore_set_db u d hu (record_lookup_key r) id]
    cases hput : putPrimaryStore u (record_lookup_key r) id with
    | error e => rfl
    | ok u2 => rfl

theorem putRecordStore_pair (t : CacheState) (id : Nat) (r1 r2 : Record) :
    (∃ e, putRecordStore t id r1 = .error e ∧ putRecordStore t id r2 = .error e) ∨
    (putRecordStore t id r1 = .ok { t with db := alPut t.db id r1 } ∧
      putRecordStore t id r2 = .ok { t with db := alPut t.db id r2 }) := by
  unfold putRecordStore
  by_cases h1 : (alGet t.db id).isSome
  · right
    exact ⟨by simp [h1], by simp [h1]⟩
  · by_cases h2 : totalEntries t < t.capacity
    · right
      exact ⟨by simp [h1, h2], by simp [h1, h2]⟩
    · left
      exact ⟨.mapFull, by simp [h1, h2], by simp [h1, h2]⟩


theorem build_indexes_ok_db {t : CacheState} {r : Record} {schema : Schema}
    {idxs : List IndexDefinition} {id : Nat} {u : CacheState}
    (h : build_indexes t r schema idxs id = .ok u) : u.db = t.db := by
  unfold build_indexes at h
  cases hsec : build_secondary r schema id t 0 idxs with
  | err e => simp [hsec] at h
  | panicked => simp [hsec] at h
  | ok w =>
    simp only [hsec] at h
    cases hput : putPrimaryStore w (record_lookup_key r) id with
    | error e => simp [hput] at h
    | ok w2 =>
      simp only [hput] at h
      have hwu : w2 = u := by simpa using h
      subst hwu
      have h2 := putPrimaryStore_ok_inv hput
      rw [h2]
      exact build_secondary_ok_db r schema id idxs t 0 w hsec

/-- `insert_with_txn` run on two records with the same field values but
(possibly) different schema identifiers behaves identically except for the
record blob written to the primary store. -/
theorem insert_with_txn_db_only (t : CacheState) (new1 new2 : Record)
    (schema : Schema) (idxs : List IndexDefinition)
    (hv : new1.values = new2.values) :
    (LmdbCache.insert_with_txn t new1 schema idxs = .panicked ↔
      LmdbCache.insert_with_txn t new2 schema idxs = .panicked) ∧
    (∀ e, LmdbCache.insert_with_txn t new1 schema idxs = .err e ↔
      LmdbCache.insert_with_txn t new2 schema idxs = .err e) ∧
    (∀ u1, LmdbCache.insert_with_txn t new1 schema idxs = .ok u1 →
      ∃ u2, LmdbCache.insert_with_txn t new2 schema idxs = .ok u2 ∧
        u2.primary_index = u1.primary_index ∧ u2.index_dbs = u1.index_dbs ∧
        u2.schema_db = u1.schema_db ∧ u2.index_registry = u1.index_registry ∧
        u2.capacity = u1.capacity ∧
        u1.db = alPut t.db t.db.length new1 ∧
        u2.db = alPut t.db t.db.length new2) := by
  unfold LmdbCache.insert_with_txn
  rcases putRecordStore_pair t t.db.length new1 new2 with ⟨e0, he1, he2⟩ | ⟨hk1, hk2⟩
  · simp only [he1, he2]
    exact ⟨by simp, fun e => by simp, fun u1 hu => by simp at hu⟩
  · simp only [hk1, hk2]
    have hlen2 : (alPut t.db t.db.length new2).length =
        ({ t with db := alPut t.db t.db.length new1 } : CacheState).db.length := by
      dsimp only
      exact alPut_length_congr t.db t.db.length new2 new1
    have hkey2 : build_indexes { t with db := alPut t.db t.db.length new2 } new2 schema idxs t.db.length
        = setDbRes (alPut t.db t.db.length new2)
            (build_indexes { t with db := alPut t.db t.db.length new1 } new1 schema idxs t.db.length) := by
      rw [build_indexes_values_congr _ new2 new1 schema idxs _ hv.symm]
      exact build_indexes_set_db { t with db := alPut t.db t.db.length new1 } new1
        schema idxs t.db.length (alPut t.db t.db.length new2) hlen2
    rw [hkey2]
    cases hb : build_indexes { t with db := alPut t.db t.db.length new1 } new1
        schema idxs t.db.length with
    | panicked =>
      exact ⟨by simp [setDbRes], fun e => by simp [setDbRes], fun u1 hu => by simp at hu⟩
    | err e1 =>
      exact ⟨by simp [setDbRes], fun e => by simp [setDbRes], fun u1 hu => by simp at hu⟩
    | ok w1 =>
      refine ⟨by simp [setDbRes], fun e => by simp [setDbRes], ?_⟩
      intro u1 hu
      have hwu : w1 = u1 := by simpa using hu
      subst hwu
      have hdb1 : w1.db = alPut t.db t.db.length new1 := build_indexes_ok_db hb
      exact ⟨{ w1 with db := alPut t.db t.db.length new2 }, by simp [setDbRes],
        rfl, rfl, rfl, rfl, rfl, hdb1, rfl⟩

/-- C10: `update(key, newRecord)` never consults `newRecord`'s own schema
identifier — two new records with the same field values (and arbitrary,
possibly differing or absent, schema identifiers) drive `update` to the
same control flow, the same errors, and the same final state in every
sub-store except the record blob itself: schema and index definitions are
resolved from the OLD record stored under the key. -/
theorem C10_update_ignores_new_schema_id (s : CacheState) (key : List Nat)
    (new1 new2 : Record) (hv : new1.values = new2.values) :
    (LmdbCache.update s key new1 = .panicked ↔
      LmdbCache.update s key new2 = .panicked) ∧
    (∀ e s1, LmdbCache.update s key new1 = .err e s1 ↔
      LmdbCache.update s key new2 = .err e s1) ∧
    (∀ t1, LmdbCache.update s key new1 = .ok t1 →
      ∃ t2, LmdbCache.update s key new2 = .ok t2 ∧
        t2.primary_index = t1.primary_index ∧ t2.index_dbs = t1.index_dbs ∧
        t2.schema_db = t1.schema_db ∧ t2.index_registry = t1.index_registry ∧
        t2.capacity = t1.capacity ∧
        ∃ base id, t1.db = alPut base id new1 ∧ t2.db = alPut base id new2) := by
  cases hget : LmdbCache.get_with_txn s key with
  | err e0 =>
    have hu1 : LmdbCache.update s key new1 = .err e0 s := by
      unfold LmdbCache.update
      simp [hget]
    have hu2 : LmdbCache.update s key new2 = .err e0 s := by
      unfold LmdbCache.update
      simp [hget]
    rw [hu1, hu2]
    exact ⟨Iff.rfl, fun e s1 => Iff.rfl, fun t1 hu => absurd hu (by simp)⟩
  | panicked =>
    have hu1 : LmdbCache.update s key new1 = .panicked := by
      unfold LmdbCache.update
      simp [hget]
    have hu2 : LmdbCache.update s key new2 = .panicked := by
      unfold LmdbCache.update
      simp [hget]
    rw [hu1, hu2]
    exact ⟨Iff.rfl, fun e s1 => Iff.rfl, fun t1 hu => absurd hu (by simp)⟩
  | ok old =>
    cases hres : LmdbCache.get_schema_and_indexes_from_record s old with
    | err e0 =>
      have hu1 : LmdbCache.update s key new1 = .err e0 s := by
        unfold LmdbCache.update
        simp [hget, hres]
      have hu2 : LmdbCache.update s key new2 = .err e0 s := by
        unfold LmdbCache.update
        simp [hget, hres]
      rw [hu1, hu2]
      exact ⟨Iff.rfl, fun e s1 => Iff.rfl, fun t1 hu => absurd hu (by simp)⟩
    | panicked =>
      have hu1 : LmdbCache.update s key new1 = .panicked := by
        unfold LmdbCache.update
        simp [hget, hres]
      have hu2 : LmdbCache.update s key new2 = .panicked := by
        unfold LmdbCache.update
        simp [hget, hres]
      rw [hu1, hu2]
      exact ⟨Iff.rfl, fun e s1 => Iff.rfl, fun t1 hu => absurd hu (by simp)⟩
    | ok p =>
      obtain ⟨schema, idxs⟩ := p
      cases hdel : LmdbCache.delete_with_txn s key old schema idxs with
      | err e0 =>
        have hu1 : LmdbCache.update s key new1 = .err e0 s := by
          unfold LmdbCache.update LmdbCache.update_with_txn
          simp [hget, hres, hdel]
        have hu2 : LmdbCache.update s key new2 = .err e0 s := by
          unfold LmdbCache.update LmdbCache.update_with_txn
          simp [hget, hres, hdel]
        rw [hu1, hu2]
        exact ⟨Iff.rfl, fun e s1 => Iff.rfl, fun t1 hu => absurd hu (by simp)⟩
      | panicked =>
        have hu1 : LmdbCache.update s key new1 = .panicked := by
          unfold LmdbCache.update LmdbCache.update_with_txn
          simp [hget, hres, hdel]
        have hu2 : LmdbCache.update s key new2 = .panicked := by
          unfold LmdbCache.update LmdbCache.update_with_txn
          simp [hget, hres, hdel]
        rw [hu1, hu2]
        exact ⟨Iff.rfl, fun e s1 => Iff.rfl, fun t1 hu => absurd hu (by simp)⟩
      | ok t1 =>
        obtain ⟨hp, he, hok⟩ := insert_with_txn_db_only t1 new1 new2 schema idxs hv
        cases hins1 : LmdbCache.insert_with_txn t1 new1 schema idxs with
        | panicked =>
          have hins2 := hp.mp hins1
          have hu1 : LmdbCache.update s key new1 = .panicked := by
            unfold LmdbCache.update LmdbCache.update_with_txn
            simp [hget, hres, hdel, hins1]
          have hu2 : LmdbCache.update s key new2 = .panicked := by
            unfold LmdbCache.update LmdbCache.update_with_txn
            simp [hget, hres, hdel, hins2]
          rw [hu1, hu2]
          exact ⟨Iff.rfl, fun e s1 => Iff.rfl, fun t1m hu => absurd hu (by simp)⟩
        | err e1 =>
          have hins2 := (he e1).mp hins1
          have hu1 : LmdbCache.update s key new1 = .err (.internalError e1) s := by
            unfold LmdbCache.update LmdbCache.update_with_txn
            simp [hget, hres, hdel, hins1]
          have hu2 : LmdbCache.update s key new2 = .err (.internalError e1) s := by
            unfold LmdbCache.update LmdbCache.update_with_txn
            simp [hget, hres, hdel, hins2]
          rw [hu1, hu2]
          exact ⟨Iff.rfl, fun e s1 => Iff.rfl, fun t1m hu => absurd hu (by simp)⟩
        | ok w1 =>
          obtain ⟨w2, hins2, f1, f2, f3, f4, f5, g1, g2⟩ := hok w1 hins1
          have hu1 : LmdbCache.update s key new1 = .ok w1 := by
            unfold LmdbCache.update LmdbCache.update_with_txn
            simp [hget, hres, hdel, hins1]
          have hu2 : LmdbCache.update s key new2 = .ok w2 := by
            unfold LmdbCache.update LmdbCache.update_with_txn
            simp [hget, hres, hdel, hins2]
          rw [hu1, hu2]
          refine ⟨by simp, ?_, ?_⟩
          · intro e s1
            constructor <;> intro hx <;> exact absurd hx (by simp)
          · intro t1m hu
            have hwu : w1 = t1m := by simpa using hu
            subst hwu
            exact ⟨w2, rfl, f1, f2, f3, f4, f5, t1.db, t1.db.length, g1, g2⟩

/-- C10 witness: the theorem applied on `stA` at `rA`'s key, with `rB`
against a copy of `rB` whose schema identifier is ABSENT — the update
ignores the difference. -/
theorem C10_update_ignores_new_schema_id_witness :
    (LmdbCache.update stA (record_lookup_key rA) rB = .panicked ↔
      LmdbCache.update stA (record_lookup_key rA) ⟨none, rB.values⟩ = .panicked) ∧
    (∀ e s1, LmdbCache.update stA (record_lookup_key rA) rB = .err e s1 ↔
      LmdbCache.update stA (record_lookup_key rA) ⟨none, rB.values⟩ = .err e s1) ∧
    (∀ t1, LmdbCache.update stA (record_lookup_key rA) rB = .ok t1 →
      ∃ t2, LmdbCache.update stA (record_lookup_key rA) ⟨none, rB.values⟩ = .ok t2 ∧
        t2.primary_index = t1.primary_index ∧ t2.index_dbs = t1.index_dbs ∧
        t2.schema_db = t1.schema_db ∧ t2.index_registry = t1.index_registry ∧
        t2.capacity = t1.capacity ∧
        ∃ base id, t1.db = alPut base id rB ∧
          t2.db = alPut base id (⟨none, rB.values⟩ : Record)) :=
  C10_update_ignores_new_schema_id stA (record_lookup_key rA) rB
    ⟨none, rB.values⟩ rfl

end Dozer
